import Mathlib

/-!
Shallow embedding of the `valyu-js` TypeScript client (`src/index.ts`) and
proofs about the claims of its specification.

Modelling conventions, used throughout:
* JavaScript strings are modelled by `String` / `List Char`; JavaScript
  numbers by `ℚ` (the client never does arithmetic on them beyond order
  comparisons and defaulting, so rationals are a faithful carrier).
* An optional / possibly-`undefined` field is an `Option`.  JavaScript
  truthiness of a string-or-undefined value is `jsTruthyS`; the `x || y`
  operator on such values is `jsOrD`.
* Wall-clock time is modelled in milliseconds as `ℕ`; each iteration of a
  polling loop advances time by exactly the poll interval (the `setTimeout`
  at the end of the loop body), so the elapsed time read by the timeout
  check of iteration `n` is `n * pollInterval`.
* Unbounded `while` loops are embedded with an explicit fuel argument;
  `none` means the loop has not finished within that much fuel.
-/

/-- JavaScript truthiness of a `string | undefined` value: `undefined` and
the empty string are falsy. -/
def jsTruthyS : Option String → Bool
  | some s => s ≠ ""
  | none => false

/-- JavaScript `x || d` for `x : string | undefined` and a string default. -/
def jsOrD (x : Option String) (d : String) : String :=
  match x with
  | some s => if s = "" then d else s
  | none => d

/-- ASCII letters and digits, the `[a-zA-Z0-9]` character class. -/
def isAlnumA (c : Char) : Bool :=
  (('a' ≤ c && c ≤ 'z') || ('A' ≤ c && c ≤ 'Z') || ('0' ≤ c && c ≤ '9'))

/-- The `[a-zA-Z0-9-]` character class of the domain regex. -/
def isLabelChar (c : Char) : Bool := isAlnumA c || c = '-'

/-- The `[a-zA-Z0-9_-]` character class of the dataset-identifier regexes. -/
def isIdChar (c : Char) : Bool := isAlnumA c || c = '-' || c = '_'

/-- Characters matched by the regex metacharacter `.` (any character other
than a JavaScript line terminator). -/
def isRegexAnyChar (c : Char) : Bool :=
  c ≠ '\n' && c ≠ '\r' && c ≠ (Char.ofNat 8232) && c ≠ (Char.ofNat 8233)

/-- Splitting a character list at every occurrence of the separator `c`,
with the semantics of JavaScript `String.prototype.split` for a one-character
separator (and of `buffer.split` in the SSE loops).  The result is always
nonempty; separators are not kept. -/
def splitCh (c : Char) : List Char → List (List Char)
  | [] => [[]]
  | x :: xs =>
    if x = c then [] :: splitCh c xs
    else
      match splitCh c xs with
      | [] => [[x]]
      | l :: ls => (x :: l) :: ls

theorem splitCh_ne_nil (c : Char) (s : List Char) : splitCh c s ≠ [] := by
  induction s with
  | nil => simp [splitCh]
  | cons x xs ih =>
    by_cases h : x = c <;> simp [splitCh, h]
    cases hs : splitCh c xs <;> simp

/-- Splitting at the first occurrence of `c`: returns the part before it and,
when `c` occurs, the part after it. -/
def cutCh (c : Char) : List Char → List Char × Option (List Char)
  | [] => ([], none)
  | x :: xs =>
    if x = c then ([], some xs)
    else
      let p := cutCh c xs
      (x :: p.1, p.2)

/-- A single label of the domain regex,
`[a-zA-Z0-9]([a-zA-Z0-9-]{0,61}[a-zA-Z0-9])?`: one to 63 characters from
`[a-zA-Z0-9-]`, first and last alphanumeric. -/
def validLabel (l : List Char) : Bool :=
  decide (1 ≤ l.length) && decide (l.length ≤ 63) &&
    l.all isLabelChar && isAlnumA (l.headD '-') && isAlnumA (l.getLastD '-')

/-- The host part of the domain regex: at least two `.`-separated labels,
each matching `validLabel`. -/
def domainLabelsOk (l : List Char) : Bool :=
  let labels := splitCh '.' l
  decide (2 ≤ labels.length) && labels.all validLabel

/-- `Valyu.validateDomain`: the test of the regex
`^[a-zA-Z0-9]([a-zA-Z0-9-]{0,61}[a-zA-Z0-9])?(\.[a-zA-Z0-9]([a-zA-Z0-9-]{0,61}[a-zA-Z0-9])?)+(\/.+)?$`.
Since `/` can occur neither in a label nor in the literal dots, a match
decomposes at the first `/`: everything before it is the `.`-separated label
list, everything after it is the (nonempty) path matched by `.+`. -/
def validateDomain (s : String) : Bool :=
  match cutCh '/' s.toList with
  | (dom, none) => domainLabelsOk dom
  | (dom, some path) =>
    domainLabelsOk dom && decide (path ≠ []) && path.all isRegexAnyChar

/-- `Valyu.validateDatasetId`: `split("/")` must give exactly two parts, both
matching `^[a-zA-Z0-9_-]+$` (the redundant `length > 0` checks of the source
are subsumed by the `+` of the regexes and kept here as the length guards). -/
def validateDatasetId (s : String) : Bool :=
  match splitCh '/' s.toList with
  | [a, b] =>
    a.all isIdChar && b.all isIdChar && decide (0 < a.length) && decide (0 < b.length)
  | _ => false

/-- `Valyu.validateSource`.  The WHATWG `URL` constructor used by
`validateUrl` is a host primitive, not code of this repository; it is
threaded through as the oracle `isUrl`. -/
def validateSource (isUrl : String → Bool) (s : String) : Bool :=
  isUrl s || validateDomain s || validateDatasetId s

/-- `Valyu.validateSources`: the list of elements failing `validateSource`,
in order; the array is valid when that list is empty. -/
def invalidSourcesOf (isUrl : String → Bool) (sources : List String) : List String :=
  sources.filter (fun s => !validateSource isUrl s)

/-- Decimal value of an ASCII digit. -/
def digitVal (c : Char) : ℕ := c.toNat - 48

/-- Gregorian leap-year rule, as used by the JavaScript `Date` parser. -/
def isLeapYear (y : ℕ) : Bool := (y % 4 == 0 && y % 100 != 0) || y % 400 == 0

/-- Number of days of month `m` of year `y`. -/
def daysInMonth (y m : ℕ) : ℕ :=
  if m = 2 then (if isLeapYear y then 29 else 28)
  else if m = 4 ∨ m = 6 ∨ m = 9 ∨ m = 11 then 30
  else 31

/-- `Valyu.validateDateFormat`: the regex `^\d{4}-\d{2}-\d{2}$` plus
`new Date(date)` producing a valid date, which for a string of this shape
means the month is 1–12 and the day is within the month. -/
def validateDateFormat (s : String) : Bool :=
  match s.toList with
  | [y1, y2, y3, y4, '-', m1, m2, '-', d1, d2] =>
    (y1.isDigit && y2.isDigit && y3.isDigit && y4.isDigit &&
      m1.isDigit && m2.isDigit && d1.isDigit && d2.isDigit) &&
    (let y := 1000 * digitVal y1 + 100 * digitVal y2 + 10 * digitVal y3 + digitVal y4
     let m := 10 * digitVal m1 + digitVal m2
     let d := 10 * digitVal d1 + digitVal d2
     decide (1 ≤ m) && decide (m ≤ 12) && decide (1 ≤ d) && decide (d ≤ daysInMonth y m))
  | _ => false

example : validateDomain ("example.com") = true := by decide
example : validateDomain ("sub.example.com/path/to/x") = true := by decide
example : validateDomain ("example") = false := by decide
example : validateDomain ("-bad.com") = false := by decide
example : validateDomain ("example.com/") = false := by decide
example : validateDatasetId ("valyu/arxiv") = true := by decide
example : validateDatasetId ("valyu/arxiv/extra") = false := by decide
example : validateDatasetId ("/data") = false := by decide
example : validateDateFormat ("2024-02-29") = true := by decide
example : validateDateFormat ("2023-02-29") = false := by decide
example : validateDateFormat ("2023-13-01") = false := by decide
example : validateDateFormat ("2023-1-01") = false := by decide

theorem getLastD_append_of_ne_nil {α : Type} (a b : List α) (d : α) (h : b ≠ []) :
    (a ++ b).getLastD d = b.getLastD d := by
  cases b with
  | nil => simp at h
  | cons y ys =>
    simp [List.getLastD_eq_getLast?]
    cases hy : (y :: ys).getLast? with
    | none => simp [List.getLast?_eq_none_iff] at hy
    | some v => simp [Option.or]

theorem splitCh_of_not_mem (c : Char) (l : List Char) (h : c ∉ l) :
    splitCh c l = [l] := by
  induction l with
  | nil => rfl
  | cons x xs ih =>
    simp only [List.mem_cons, not_or] at h
    have hx : ¬ x = c := fun hc => h.1 hc.symm
    simp [splitCh, hx, ih h.2]

theorem splitCh_getLastD_not_mem (c : Char) (s : List Char) :
    c ∉ (splitCh c s).getLastD [] := by
  induction s with
  | nil => simp [splitCh]
  | cons x xs ih =>
    obtain ⟨l, ls, hls⟩ := List.exists_cons_of_ne_nil (splitCh_ne_nil c xs)
    rw [hls] at ih
    by_cases hx : x = c
    · simp only [splitCh, hx, if_pos rfl, hls]
      simpa [List.getLastD_cons] using ih
    · simp only [splitCh, hx, if_neg, hls, ite_false]
      cases ls with
      | nil =>
        simp only [List.getLastD_cons, List.getLastD_nil] at ih ⊢
        simp only [List.mem_cons, not_or]
        exact ⟨fun hc => hx hc.symm, ih⟩
      | cons y ys => simpa [List.getLastD_cons] using ih

/-- Decomposition of a split of an appended list: the left part contributes
all of its complete segments, and its last (separator-free) segment is
carried over into the split of the right part — exactly the buffer
carry-over of the SSE loops. -/
theorem splitCh_append_eq (c : Char) (a b : List Char) :
    splitCh c (a ++ b) =
      (splitCh c a).dropLast ++ splitCh c ((splitCh c a).getLastD [] ++ b) := by
  induction a with
  | nil => simp [splitCh]
  | cons x xs ih =>
    obtain ⟨l, ls, hls⟩ := List.exists_cons_of_ne_nil (splitCh_ne_nil c xs)
    rw [hls] at ih
    by_cases hx : x = c
    · subst hx
      simp [splitCh, hls, List.getLastD_cons] at ih ⊢
      exact ih
    · cases ls with
      | nil =>
        have hleft : splitCh c (x :: xs) = [x :: l] := by simp [splitCh, hx, hls]
        have hmid : splitCh c (x :: (xs ++ b)) =
            match splitCh c (xs ++ b) with
            | [] => [[x]]
            | m :: ms => (x :: m) :: ms := by simp [splitCh, hx]
        rw [List.cons_append, hmid, ih]
        simp only [List.getLastD_cons, List.getLastD_nil, List.dropLast_single,
          List.nil_append, hleft]
        obtain ⟨m, ms, hm⟩ :=
          List.exists_cons_of_ne_nil (splitCh_ne_nil c (l ++ b))
        have hstep : splitCh c (x :: l ++ b) =
            match splitCh c (l ++ b) with
            | [] => [[x]]
            | m :: ms => (x :: m) :: ms := by simp [splitCh, hx]
        rw [hm, hstep, hm]
      | cons u us =>
        have hleft : splitCh c (x :: xs) = (x :: l) :: u :: us := by
          simp [splitCh, hx, hls]
        have hmid : splitCh c (x :: (xs ++ b)) =
            match splitCh c (xs ++ b) with
            | [] => [[x]]
            | m :: ms => (x :: m) :: ms := by simp [splitCh, hx]
        rw [List.cons_append, hmid, ih, hleft]
        simp [List.getLastD_cons, List.dropLast_cons_of_ne_nil]

/-- One round of the body-reading loop of `fetchAnswer` / `streamAnswer`:
`buffer += decoder.decode(value); lines = buffer.split("\n");
buffer = lines.pop() || ""`.  Returns the complete lines handed to the
line parser and the new buffer.  (`TextDecoder` with `stream: true` makes
byte-chunk decoding chunking-invariant, so chunks are modelled as the
decoded character sequences.) -/
def sseFeed (buf chunk : List Char) : List (List Char) × List Char :=
  let ls := splitCh '\n' (buf ++ chunk)
  (ls.dropLast, ls.getLastD [])

/-- The whole reader loop over a list of body chunks, starting from a given
buffer: concatenates the lines emitted by each round and returns the final
(unprocessed) buffer. -/
def sseRun (buf : List Char) : List (List Char) → List (List Char) × List Char
  | [] => ([], buf)
  | ch :: cs =>
    let p := sseFeed buf ch
    let q := sseRun p.2 cs
    (p.1 ++ q.1, q.2)

/-- Characterization of the reader loop: starting from a newline-free buffer,
the emitted lines and the final buffer depend only on the concatenation of
the chunks — they are the complete lines, and the trailing segment, of
`buf ++ flatten chunks` split at newlines. -/
theorem sseRun_eq (buf : List Char) (h : '\n' ∉ buf) (chunks : List (List Char)) :
    sseRun buf chunks =
      ((splitCh '\n' (buf ++ chunks.flatten)).dropLast,
        (splitCh '\n' (buf ++ chunks.flatten)).getLastD []) := by
  induction chunks generalizing buf with
  | nil => simp [sseRun, splitCh_of_not_mem '\n' buf h]
  | cons ch cs ih =>
    have hg : '\n' ∉ (splitCh '\n' (buf ++ ch)).getLastD [] :=
      splitCh_getLastD_not_mem '\n' (buf ++ ch)
    have hs := splitCh_append_eq '\n' (buf ++ ch) cs.flatten
    have hne : splitCh '\n' ((splitCh '\n' (buf ++ ch)).getLastD [] ++ cs.flatten) ≠ [] :=
      splitCh_ne_nil _ _
    simp only [sseRun, sseFeed, ih _ hg, List.flatten_cons, ← List.append_assoc, hs]
    rw [List.dropLast_append_of_ne_nil _ hne, getLastD_append_of_ne_nil _ _ _ hne]

/-- A search result is opaque payload data to the client; it is passed
through untouched, so it is modelled as an opaque token. -/
structure SRv where
  payload : String
deriving DecidableEq

/-- The `search_metadata` object of the answer API (`SearchMetadata`). -/
structure SMetaM where
  tx_ids : List String
  number_of_results : ℚ
  total_characters : ℚ
deriving DecidableEq

/-- The `ai_usage` object of the answer API (`AIUsage`). -/
structure AIUsageM where
  input_tokens : ℚ
  output_tokens : ℚ
deriving DecidableEq

/-- The `cost` object of the answer API (`Cost`). -/
structure CostM where
  total_deduction_dollars : ℚ
  search_deduction_dollars : ℚ
  ai_deduction_dollars : ℚ
deriving DecidableEq

/-- The `extraction_metadata` object: opaque passthrough data (an object is
always truthy in JavaScript, hence presence equals truthiness). -/
structure EMetaM where
  payload : String
deriving DecidableEq

/-- The `delta` object of an SSE content chunk. -/
structure DeltaM where
  content : Option String
deriving DecidableEq

/-- One element of the `choices` array of an SSE content chunk. -/
structure ChoiceM where
  delta : Option DeltaM
  finish_reason : Option String
deriving DecidableEq

/-- The result of `JSON.parse` on a `data: ` payload, restricted to the
fields the client inspects.  A field is `none` when absent from the parsed
object. -/
structure ParsedPayload where
  search_results : Option (List SRv)
  success : Option Bool
  choices : Option (List ChoiceM)
  contents : Option String
  tx_id : Option String
  original_query : Option String
  search_metadata : Option SMetaM
  ai_usage : Option AIUsageM
  cost : Option CostM
  error : Option String
  extraction_metadata : Option EMetaM
deriving DecidableEq

/-- `parsed.choices[0]?.delta?.content || ""`. -/
def choiceContent (p : ParsedPayload) : String :=
  match (p.choices.getD []).head? with
  | none => ""
  | some ch =>
    match ch.delta with
    | none => ""
    | some d => d.content.getD ("")

/-- `parsed.choices[0]?.finish_reason`. -/
def choiceFinishReason (p : ParsedPayload) : Option String :=
  (p.choices.getD []).head?.bind (fun ch => ch.finish_reason)

/-- How a parsed payload is routed by the `if`/`else if` chain of a line
parser. -/
inductive PayloadRoute
  | searchResults
  | contentDelta
  | finalMetadata
  | skipped
deriving DecidableEq

/-- Branch selection of `fetchAnswer`:
`if (parsed.search_results && !parsed.success) … else if (parsed.choices) …
else if (parsed.success !== undefined) …`.  An array is truthy even when
empty, and `!parsed.success` holds unless `success` is present and `true`. -/
def classifyFetchP (p : ParsedPayload) : PayloadRoute :=
  if p.search_results.isSome && !(p.success = some true : Bool) then .searchResults
  else if p.choices.isSome then .contentDelta
  else if p.success.isSome then .finalMetadata
  else .skipped

/-- Branch selection of `streamAnswer`:
`if (parsed.search_results && parsed.success === undefined) …
else if (parsed.choices) … else if (parsed.success !== undefined) …`. -/
def classifyStreamP (p : ParsedPayload) : PayloadRoute :=
  if p.search_results.isSome && p.success = none then .searchResults
  else if p.choices.isSome then .contentDelta
  else if p.success.isSome then .finalMetadata
  else .skipped

/-- The fields of the `metadata` stream chunk yielded by `streamAnswer`. -/
structure MetaChunkM where
  tx_id : Option String
  original_query : Option String
  contents : Option String
  search_results : Option (List SRv)
  search_metadata : Option SMetaM
  ai_usage : Option AIUsageM
  cost : Option CostM
  extraction_metadata : Option EMetaM
deriving DecidableEq

/-- An `AnswerStreamChunk` yielded by `streamAnswer`. -/
inductive AnswerChunkM
  | searchResults (rs : List SRv)
  | content (content : String) (finish_reason : Option String)
  | metadata (m : MetaChunkM)
  | done
  | error (e : String)
deriving DecidableEq

/-- The metadata chunk built from a parsed payload by `streamAnswer`. -/
def metaChunkOf (p : ParsedPayload) : MetaChunkM :=
  ⟨p.tx_id, p.original_query, p.contents, p.search_results,
    p.search_metadata, p.ai_usage, p.cost, p.extraction_metadata⟩

/-- Chunks yielded by `streamAnswer` for one successfully parsed payload.
A content chunk is yielded only `if (content || finishReason)`. -/
def streamClassStep (p : ParsedPayload) : List AnswerChunkM :=
  match classifyStreamP p with
  | .searchResults => [.searchResults (p.search_results.getD [])]
  | .contentDelta =>
    let content := choiceContent p
    let fr := choiceFinishReason p
    if content ≠ "" || jsTruthyS fr then [.content content fr] else []
  | .finalMetadata => [.metadata (metaChunkOf p)]
  | .skipped => []

/-- The `data: ` marker stripped by `line.slice(6)`. -/
def dataMarker : List Char := ("data: ").toList

/-- The `[DONE]` sentinel payload. -/
def doneToken : List Char := ("[DONE]").toList

/-- Processing of one complete line by `streamAnswer`: only lines starting
with `data: ` are considered; `[DONE]` yields a `done` chunk; a payload
`JSON.parse` rejects (`jp` returns `none`) is skipped. -/
def processLineStream (jp : List Char → Option ParsedPayload) (line : List Char) :
    List AnswerChunkM :=
  if line.take 6 = dataMarker then
    let dataStr := line.drop 6
    if dataStr = doneToken then [.done]
    else
      match jp dataStr with
      | none => []
      | some p => streamClassStep p
  else []

/-- Accumulator state of `fetchAnswer` while it drains the stream:
`fullContent`, `searchResults` and `finalMetadata` (initially `{}`,
modelled as `none`). -/
structure FetchAcc where
  fullContent : String
  searchResults : List SRv
  finalMetadata : Option ParsedPayload
deriving DecidableEq

/-- State update of `fetchAnswer` for one successfully parsed payload. -/
def fetchStep (acc : FetchAcc) (p : ParsedPayload) : FetchAcc :=
  match classifyFetchP p with
  | .searchResults =>
    { acc with searchResults := acc.searchResults ++ p.search_results.getD [] }
  | .contentDelta =>
    let content := choiceContent p
    if content ≠ "" then { acc with fullContent := acc.fullContent ++ content } else acc
  | .finalMetadata => { acc with finalMetadata := some p }
  | .skipped => acc

/-- Processing of one complete line by `fetchAnswer`: same gating as
`processLineStream`, but `[DONE]` is skipped. -/
def processLineFetch (jp : List Char → Option ParsedPayload) (acc : FetchAcc)
    (line : List Char) : FetchAcc :=
  if line.take 6 = dataMarker then
    let dataStr := line.drop 6
    if dataStr = doneToken then acc
    else
      match jp dataStr with
      | none => acc
      | some p => fetchStep acc p
  else acc

/-- The full chunk sequence `streamAnswer` yields from a response body given
as a list of chunks (after a successful HTTP response). -/
def streamAnswerChunks (jp : List Char → Option ParsedPayload)
    (chunks : List (List Char)) : List AnswerChunkM :=
  ((sseRun [] chunks).1.map (processLineStream jp)).flatten

/-- The accumulator state `fetchAnswer` reaches after draining a response
body given as a list of chunks. -/
def fetchAnswerAcc (jp : List Char → Option ParsedPayload)
    (chunks : List (List Char)) : FetchAcc :=
  (sseRun [] chunks).1.foldl (processLineFetch jp) ⟨"", [], none⟩

/-- The success payload of a non-streaming answer (`AnswerSuccessResponse`
as assembled by `fetchAnswer`). -/
structure AnswerOkM where
  tx_id : String
  original_query : String
  contents : String
  search_results : List SRv
  search_metadata : SMetaM
  ai_usage : AIUsageM
  cost : CostM
  extraction_metadata : Option EMetaM
deriving DecidableEq

/-- The outcome of `fetchAnswer` (`AnswerResponse`). -/
inductive AnswerRespM
  | ok (r : AnswerOkM)
  | err (error : String)
deriving DecidableEq

/-- Response assembly at the end of `fetchAnswer`, from the payload query
and the final accumulator state, with the defaults of the source. -/
def buildAnswerResponse (payloadQuery : String) (acc : FetchAcc) : AnswerRespM :=
  match acc.finalMetadata with
  | some fm =>
    if fm.success = some true then
      .ok
        { tx_id := jsOrD fm.tx_id ("")
          original_query := jsOrD fm.original_query payloadQuery
          contents :=
            if jsTruthyS fm.contents then fm.contents.getD ("") else acc.fullContent
          search_results := fm.search_results.getD acc.searchResults
          search_metadata := fm.search_metadata.getD ⟨[], 0, 0⟩
          ai_usage := fm.ai_usage.getD ⟨0, 0⟩
          cost := fm.cost.getD ⟨0, 0, 0⟩
          extraction_metadata := fm.extraction_metadata }
    else .err (jsOrD fm.error ("Unknown error occurred"))
  | none => .err ("Unknown error occurred")

/-- The final response of `fetchAnswer` for a drained body. -/
def fetchAnswerResult (jp : List Char → Option ParsedPayload)
    (payloadQuery : String) (chunks : List (List Char)) : AnswerRespM :=
  buildAnswerResponse payloadQuery (fetchAnswerAcc jp chunks)

/-- A payload on which the two line parsers disagree: `search_results`
present together with `success` present and `false`. -/
def isSrFalsePayload (p : ParsedPayload) : Bool :=
  p.search_results.isSome && (p.success = some false : Bool)

/-- Concatenation of the `content` fields of the chunks of type `content`
in a chunk sequence. -/
def contentConcatOf : List AnswerChunkM → String
  | [] => ""
  | AnswerChunkM.content c _ :: rest => c ++ contentConcatOf rest
  | AnswerChunkM.searchResults _ :: rest => contentConcatOf rest
  | AnswerChunkM.metadata _ :: rest => contentConcatOf rest
  | AnswerChunkM.done :: rest => contentConcatOf rest
  | AnswerChunkM.error _ :: rest => contentConcatOf rest

theorem contentConcatOf_append (a b : List AnswerChunkM) :
    contentConcatOf (a ++ b) = contentConcatOf a ++ contentConcatOf b := by
  induction a with
  | nil => simp [contentConcatOf]
  | cons x xs ih =>
    cases x <;> simp [contentConcatOf, ih, String.append_assoc]

theorem classify_agree (p : ParsedPayload) (h : isSrFalsePayload p = false) :
    classifyFetchP p = classifyStreamP p := by
  cases hsuc : p.success with
  | none => simp [classifyFetchP, classifyStreamP, hsuc]
  | some b =>
    cases b with
    | true => simp [classifyFetchP, classifyStreamP, hsuc]
    | false =>
      have hsr : p.search_results.isSome = false := by
        simp [isSrFalsePayload, hsuc] at h
        simp [h]
      simp [classifyFetchP, classifyStreamP, hsuc, hsr]

theorem fullContent_step (acc : FetchAcc) (p : ParsedPayload)
    (h : isSrFalsePayload p = false) :
    (fetchStep acc p).fullContent =
      acc.fullContent ++ contentConcatOf (streamClassStep p) := by
  rw [streamClassStep, ← classify_agree p h]
  cases hc : classifyFetchP p with
  | searchResults => simp [fetchStep, hc, contentConcatOf]
  | contentDelta =>
    by_cases hcont : choiceContent p = ""
    · simp [fetchStep, hc, hcont, contentConcatOf]
      by_cases hfr : jsTruthyS (choiceFinishReason p) = true <;>
        simp [hfr, contentConcatOf]
    · simp [fetchStep, hc, hcont, contentConcatOf]
  | finalMetadata => simp [fetchStep, hc, contentConcatOf]
  | skipped => simp [fetchStep, hc, contentConcatOf]

theorem fullContent_line (jp : List Char → Option ParsedPayload)
    (acc : FetchAcc) (l : List Char)
    (h : ∀ p, jp (l.drop 6) = some p → isSrFalsePayload p = false) :
    (processLineFetch jp acc l).fullContent =
      acc.fullContent ++ contentConcatOf (processLineStream jp l) := by
  by_cases hd : l.take 6 = dataMarker
  · by_cases hdone : l.drop 6 = doneToken
    · simp [processLineFetch, processLineStream, hd, hdone, contentConcatOf]
    · cases hp : jp (l.drop 6) with
      | none => simp [processLineFetch, processLineStream, hd, hdone, hp, contentConcatOf]
      | some p =>
        simp only [processLineFetch, processLineStream, hd, if_pos, hdone, if_neg, hp,
          ite_false, ite_true]
        exact fullContent_step acc p (h p hp)
  · simp [processLineFetch, processLineStream, hd, contentConcatOf]

theorem fullContent_fold (jp : List Char → Option ParsedPayload)
    (lines : List (List Char)) (acc : FetchAcc)
    (h : ∀ l ∈ lines, ∀ p, jp (l.drop 6) = some p → isSrFalsePayload p = false) :
    (lines.foldl (processLineFetch jp) acc).fullContent =
      acc.fullContent ++ contentConcatOf ((lines.map (processLineStream jp)).flatten) := by
  induction lines generalizing acc with
  | nil => simp [contentConcatOf]
  | cons l ls ih =>
    have h1 : ∀ p, jp (l.drop 6) = some p → isSrFalsePayload p = false :=
      fun p hp => h l (by simp) p hp
    have h2 : ∀ x ∈ ls, ∀ p, jp (x.drop 6) = some p → isSrFalsePayload p = false :=
      fun x hx p hp => h x (by simp [hx]) p hp
    simp only [List.foldl_cons, List.map_cons, List.flatten_cons, ih _ h2,
      fullContent_line jp acc l h1, contentConcatOf_append, String.append_assoc]

/-- A `DeepResearchStatusResponse` as consumed by the polling helpers:
`success`, the optional `status` and `error` fields, and an opaque token
standing for all remaining passthrough fields. -/
structure DRStatusResp where
  success : Bool
  status : Option String
  error : Option String
  rest : String
deriving DecidableEq

/-- Terminal states of `deepresearch.wait`:
`status === "completed" || status === "failed" || status === "cancelled"`. -/
def isTerminalDR (s : DRStatusResp) : Bool :=
  decide (s.status = some ("completed")) || decide (s.status = some ("failed")) ||
    decide (s.status = some ("cancelled"))

/-- Outcome of `deepresearch.wait`: a returned terminal status, a thrown
`Error(status.error)` for a failed status call, or the thrown
`Error("Maximum wait time exceeded")`. -/
inductive WaitResult
  | ok (r : DRStatusResp)
  | errFail (e : Option String)
  | errTimeout
deriving DecidableEq

/-- The `while (true)` loop of `_deepresearchWait`, with fuel.  Iteration `n`
polls `resp n`; the timeout check of iteration `n` reads an elapsed time of
`n * pollInterval` (one sleep per previous iteration).  The second component
is the list of statuses passed to `onProgress`, in order: a status is
reported before the terminal-state and timeout checks but not when the
status call itself failed. -/
def drWaitAux (resp : ℕ → DRStatusResp) (pollInterval maxWaitTime : ℕ) :
    ℕ → ℕ → Option (WaitResult × List DRStatusResp)
  | _, 0 => none
  | n, fuel + 1 =>
    let s := resp n
    if s.success = false then some (.errFail s.error, [])
    else if isTerminalDR s then some (.ok s, [s])
    else if maxWaitTime < n * pollInterval then some (.errTimeout, [s])
    else
      match drWaitAux resp pollInterval maxWaitTime (n + 1) fuel with
      | none => none
      | some q => some (q.1, s :: q.2)

/-- Fuel sufficient for `_deepresearchWait` to finish (proved below). -/
def drWaitFuel (pollInterval maxWaitTime : ℕ) : ℕ :=
  maxWaitTime / pollInterval + 2

/-- The whole `_deepresearchWait` run from the first poll. -/
def drWaitRun (resp : ℕ → DRStatusResp) (pollInterval maxWaitTime : ℕ) :
    Option (WaitResult × List DRStatusResp) :=
  drWaitAux resp pollInterval maxWaitTime 0 (drWaitFuel pollInterval maxWaitTime)

theorem drWaitAux_succ (resp : ℕ → DRStatusResp) (pollInterval maxWaitTime n fuel : ℕ) :
    drWaitAux resp pollInterval maxWaitTime n (fuel + 1) =
      (if (resp n).success = false then some (WaitResult.errFail (resp n).error, [])
       else if isTerminalDR (resp n) = true then some (WaitResult.ok (resp n), [resp n])
       else if maxWaitTime < n * pollInterval then some (WaitResult.errTimeout, [resp n])
       else
         match drWaitAux resp pollInterval maxWaitTime (n + 1) fuel with
         | none => none
         | some q => some (q.1, resp n :: q.2)) := rfl

theorem drWaitAux_isSome (resp : ℕ → DRStatusResp) (pollInterval maxWaitTime : ℕ)
    (hpi : 0 < pollInterval) :
    ∀ fuel n, maxWaitTime / pollInterval < n + fuel →
      (drWaitAux resp pollInterval maxWaitTime n (fuel + 1)).isSome = true := by
  intro fuel
  induction fuel with
  | zero =>
    intro n hn
    have ht : maxWaitTime < n * pollInterval :=
      (Nat.div_lt_iff_lt_mul hpi).mp (by omega)
    by_cases h1 : (resp n).success = false
    · simp [drWaitAux, h1]
    · by_cases h2 : isTerminalDR (resp n) = true <;> simp [drWaitAux, h1, h2, ht]
  | succ fuel ih =>
    intro n hn
    by_cases h1 : (resp n).success = false
    · simp [drWaitAux, h1]
    · by_cases h2 : isTerminalDR (resp n) = true
      · simp [drWaitAux, h1, h2]
      · by_cases ht : maxWaitTime < n * pollInterval
        · simp [drWaitAux, h1, h2, ht]
        · cases hq : drWaitAux resp pollInterval maxWaitTime (n + 1) (fuel + 1) with
          | none =>
            have hrec := ih (n + 1) (by omega)
            rw [hq] at hrec
            simp at hrec
          | some q =>
            rw [drWaitAux_succ, hq]
            simp [h1, h2, ht]

theorem drWaitAux_success_outcome (resp : ℕ → DRStatusResp)
    (pollInterval maxWaitTime : ℕ) (hall : ∀ n, (resp n).success = true) :
    ∀ fuel n q, drWaitAux resp pollInterval maxWaitTime n fuel = some q →
      q.1 = WaitResult.errTimeout ∨
        ∃ s, q.1 = WaitResult.ok s ∧ isTerminalDR s = true := by
  intro fuel
  induction fuel with
  | zero => intro n q hq; simp [drWaitAux] at hq
  | succ fuel ih =>
    intro n q hq
    have h1 : ¬ (resp n).success = false := by simp [hall n]
    by_cases h2 : isTerminalDR (resp n) = true
    · simp [drWaitAux, h1, h2] at hq
      exact Or.inr ⟨resp n, by simp [← hq, h2]⟩
    · by_cases ht : maxWaitTime < n * pollInterval
      · simp [drWaitAux, h1, h2, ht] at hq
        exact Or.inl (by simp [← hq])
      · cases hrec : drWaitAux resp pollInterval maxWaitTime (n + 1) fuel with
        | none => simp [drWaitAux, h1, h2, ht, hrec] at hq
        | some r =>
          rw [drWaitAux_succ, hrec] at hq
          simp [h1, h2, ht] at hq
          have hq1 : q.1 = r.1 := by rw [← hq]
          rw [hq1]
          exact ih (n + 1) r hrec

theorem drWaitAux_halt_fail (resp : ℕ → DRStatusResp) (pollInterval maxWaitTime n fuel : ℕ)
    (h : (resp n).success = false) :
    drWaitAux resp pollInterval maxWaitTime n (fuel + 1) =
      some (WaitResult.errFail (resp n).error, []) := by
  rw [drWaitAux_succ]
  simp [h]

theorem drWaitAux_halt_ok (resp : ℕ → DRStatusResp) (pollInterval maxWaitTime n fuel : ℕ)
    (h1 : (resp n).success = true) (h2 : isTerminalDR (resp n) = true) :
    drWaitAux resp pollInterval maxWaitTime n (fuel + 1) =
      some (WaitResult.ok (resp n), [resp n]) := by
  rw [drWaitAux_succ]
  simp [h1, h2]

theorem drWaitAux_step (resp : ℕ → DRStatusResp) (pollInterval maxWaitTime n fuel : ℕ)
    (h1 : (resp n).success = true) (h2 : isTerminalDR (resp n) = false)
    (h3 : n * pollInterval ≤ maxWaitTime) :
    drWaitAux resp pollInterval maxWaitTime n (fuel + 1) =
      (drWaitAux resp pollInterval maxWaitTime (n + 1) fuel).map
        (fun q => (q.1, resp n :: q.2)) := by
  rw [drWaitAux_succ]
  cases hq : drWaitAux resp pollInterval maxWaitTime (n + 1) fuel with
  | none => simp [h1, h2, Nat.not_lt.mpr h3]
  | some q => simp [h1, h2, Nat.not_lt.mpr h3]

theorem drWaitAux_run (resp : ℕ → DRStatusResp) (pollInterval maxWaitTime : ℕ) :
    ∀ k n fuel,
      (∀ j, j < k → (resp (n + j)).success = true ∧
        isTerminalDR (resp (n + j)) = false ∧ (n + j) * pollInterval ≤ maxWaitTime) →
      drWaitAux resp pollInterval maxWaitTime n (k + fuel) =
        (drWaitAux resp pollInterval maxWaitTime (n + k) fuel).map
          (fun q => (q.1, (List.range k).map (fun j => resp (n + j)) ++ q.2)) := by
  intro k
  induction k with
  | zero =>
    intro n fuel h
    cases hq : drWaitAux resp pollInterval maxWaitTime n fuel <;> simp [hq]
  | succ k ih =>
    intro n fuel h
    obtain ⟨hs, hterm, htime⟩ := h 0 (by omega)
    simp only [Nat.add_zero] at hs hterm htime
    have hstep := drWaitAux_step resp pollInterval maxWaitTime n (k + fuel) hs hterm htime
    have hshift : ∀ j, j < k → (resp (n + 1 + j)).success = true ∧
        isTerminalDR (resp (n + 1 + j)) = false ∧
        (n + 1 + j) * pollInterval ≤ maxWaitTime := by
      intro j hj
      have := h (j + 1) (by omega)
      simpa [show n + (j + 1) = n + 1 + j by omega] using this
    have hrec := ih (n + 1) fuel hshift
    rw [show k + 1 + fuel = (k + fuel) + 1 by omega, hstep, hrec]
    cases hq : drWaitAux resp pollInterval maxWaitTime (n + 1 + k) fuel with
    | none => simp [show n + (k + 1) = n + 1 + k by omega, hq]
    | some q =>
      have hfun : ((fun j => resp (n + j)) ∘ Nat.succ) = fun j => resp (n + 1 + j) := by
        funext j
        simp only [Function.comp, Nat.succ_eq_add_one]
        congr 1
        omega
      have hlist : (List.range (k + 1)).map (fun j => resp (n + j)) =
          resp n :: (List.range k).map (fun j => resp (n + 1 + j)) := by
        rw [List.range_succ_eq_map, List.map_cons, List.map_map, hfun]
        simp
      rw [show n + (k + 1) = n + 1 + k by omega, hq]
      simp [hlist]

/-- Outcome of `_deepresearchStream`: either `onComplete` was invoked with a
completed status, or `onError` was invoked (failed status call, or a
`failed` / `cancelled` status). -/
inductive StreamOutcome
  | complete (s : DRStatusResp)
  | errorCb (msg : String)
deriving DecidableEq

/-- The `while (!isComplete)` loop of `_deepresearchStream`, with fuel.
There is no timeout check in this loop: it keeps polling (sleeping a fixed
5000 ms between polls) until the status is `completed` (then `onComplete`),
or `failed` / `cancelled` or a failed status call (then `onError`).
Message/progress callback payloads do not influence control flow and are
not tracked here. -/
def drStreamAux (resp : ℕ → DRStatusResp) : ℕ → ℕ → Option StreamOutcome
  | _, 0 => none
  | n, fuel + 1 =>
    let s := resp n
    if s.success = false then some (.errorCb (s.error.getD ("")))
    else if s.status = some ("completed") then some (.complete s)
    else if s.status = some ("failed") ∨ s.status = some ("cancelled") then
      some (.errorCb (jsOrD s.error (("Task ") ++ s.status.getD (""))))
    else drStreamAux resp (n + 1) fuel

/-- A status response that keeps the stream loop running: the status call
succeeded and the status is none of `completed`, `failed`, `cancelled`. -/
def isRunningDR (s : DRStatusResp) : Bool :=
  s.success && !isTerminalDR s

theorem drStreamAux_none_of_running (resp : ℕ → DRStatusResp)
    (hall : ∀ n, isRunningDR (resp n) = true) :
    ∀ fuel n, drStreamAux resp n fuel = none := by
  intro fuel
  induction fuel with
  | zero => intro n; rfl
  | succ fuel ih =>
    intro n
    have h := hall n
    simp only [isRunningDR, Bool.and_eq_true, Bool.not_eq_true] at h
    have hterm := h.2
    have hc : ¬ (resp n).status = some ("completed") := by
      intro hcc
      simp [isTerminalDR, hcc] at hterm
    have hf : ¬ (resp n).status = some ("failed") := by
      intro hcc
      simp [isTerminalDR, hcc] at hterm
    have hx : ¬ (resp n).status = some ("cancelled") := by
      intro hcc
      simp [isTerminalDR, hcc] at hterm
    have hs : ¬ (resp n).success = false := by simp [h.1]
    simp [drStreamAux, hs, hc, hf, hx, ih]

/-- The batch object consumed by `_batchWaitForCompletion`: its `status`
field and an opaque token for the remaining passthrough fields. -/
structure BatchObj where
  status : String
  rest : String
deriving DecidableEq

/-- A `BatchStatusResponse` as consumed by `_batchWaitForCompletion`. -/
structure BatchStatusResp where
  success : Bool
  batch : Option BatchObj
  error : Option String
deriving DecidableEq

/-- Terminal states of `batch.waitForCompletion`: `completed`,
`completed_with_errors`, `cancelled`. -/
def isTerminalBatch (b : BatchObj) : Bool :=
  decide (b.status = "completed") || decide (b.status = "completed_with_errors") ||
    decide (b.status = "cancelled")

/-- Outcome of `batch.waitForCompletion`: the returned terminal batch, the
thrown `Error(statusResponse.error || "Failed to get batch status")`, or the
thrown `Error("Maximum wait time exceeded")`. -/
inductive BatchWaitResult
  | ok (b : BatchObj)
  | errFail (msg : String)
  | errTimeout
deriving DecidableEq

/-- The `while (true)` loop of `_batchWaitForCompletion`, with fuel; same
time model as `drWaitAux`.  The trace is the list of batch objects passed
to `onProgress`, in order. -/
def batchWaitAux (resp : ℕ → BatchStatusResp) (pollInterval maxWaitTime : ℕ) :
    ℕ → ℕ → Option (BatchWaitResult × List BatchObj)
  | _, 0 => none
  | n, fuel + 1 =>
    let r := resp n
    match r.batch with
    | none => some (.errFail (jsOrD r.error ("Failed to get batch status")), [])
    | some b =>
      if r.success = false then
        some (.errFail (jsOrD r.error ("Failed to get batch status")), [])
      else if isTerminalBatch b then some (.ok b, [b])
      else if maxWaitTime < n * pollInterval then some (.errTimeout, [b])
      else
        match batchWaitAux resp pollInterval maxWaitTime (n + 1) fuel with
        | none => none
        | some q => some (q.1, b :: q.2)

theorem batchWaitAux_succ (resp : ℕ → BatchStatusResp) (pollInterval maxWaitTime n fuel : ℕ) :
    batchWaitAux resp pollInterval maxWaitTime n (fuel + 1) =
      (match (resp n).batch with
       | none =>
         some (BatchWaitResult.errFail (jsOrD (resp n).error ("Failed to get batch status")), [])
       | some b =>
         if (resp n).success = false then
           some (BatchWaitResult.errFail (jsOrD (resp n).error ("Failed to get batch status")), [])
         else if isTerminalBatch b then some (BatchWaitResult.ok b, [b])
         else if maxWaitTime < n * pollInterval then some (BatchWaitResult.errTimeout, [b])
         else
           match batchWaitAux resp pollInterval maxWaitTime (n + 1) fuel with
           | none => none
           | some q => some (q.1, b :: q.2)) := rfl

/-- The whole `_batchWaitForCompletion` run from the first poll. -/
def batchWaitRun (resp : ℕ → BatchStatusResp) (pollInterval maxWaitTime : ℕ) :
    Option (BatchWaitResult × List BatchObj) :=
  batchWaitAux resp pollInterval maxWaitTime 0 (drWaitFuel pollInterval maxWaitTime)

theorem batchWaitAux_isSome (resp : ℕ → BatchStatusResp) (pollInterval maxWaitTime : ℕ)
    (hpi : 0 < pollInterval) :
    ∀ fuel n, maxWaitTime / pollInterval < n + fuel →
      (batchWaitAux resp pollInterval maxWaitTime n (fuel + 1)).isSome = true := by
  intro fuel
  induction fuel with
  | zero =>
    intro n hn
    have ht : maxWaitTime < n * pollInterval :=
      (Nat.div_lt_iff_lt_mul hpi).mp (by omega)
    cases hb : (resp n).batch with
    | none => simp [batchWaitAux, hb]
    | some b =>
      by_cases h1 : (resp n).success = false
      · simp [batchWaitAux, hb, h1]
      · by_cases h2 : isTerminalBatch b = true <;> simp [batchWaitAux, hb, h1, h2, ht]
  | succ fuel ih =>
    intro n hn
    cases hb : (resp n).batch with
    | none => simp [batchWaitAux, hb]
    | some b =>
      by_cases h1 : (resp n).success = false
      · simp [batchWaitAux, hb, h1]
      · by_cases h2 : isTerminalBatch b = true
        · simp [batchWaitAux, hb, h1, h2]
        · by_cases ht : maxWaitTime < n * pollInterval
          · simp [batchWaitAux, hb, h1, h2, ht]
          · cases hq : batchWaitAux resp pollInterval maxWaitTime (n + 1) (fuel + 1) with
            | none =>
              have hrec := ih (n + 1) (by omega)
              rw [hq] at hrec
              simp at hrec
            | some q =>
              rw [batchWaitAux_succ, hb, hq]
              simp [h1, h2, ht]

theorem batchWaitAux_success_outcome (resp : ℕ → BatchStatusResp)
    (pollInterval maxWaitTime : ℕ)
    (hall : ∀ n, (resp n).success = true ∧ (resp n).batch.isSome = true) :
    ∀ fuel n q, batchWaitAux resp pollInterval maxWaitTime n fuel = some q →
      q.1 = BatchWaitResult.errTimeout ∨
        ∃ b, q.1 = BatchWaitResult.ok b ∧ isTerminalBatch b = true := by
  intro fuel
  induction fuel with
  | zero => intro n q hq; simp [batchWaitAux] at hq
  | succ fuel ih =>
    intro n q hq
    obtain ⟨hs, hbs⟩ := hall n
    obtain ⟨b, hb⟩ := Option.isSome_iff_exists.mp hbs
    have h1 : ¬ (resp n).success = false := by simp [hs]
    by_cases h2 : isTerminalBatch b = true
    · simp [batchWaitAux, hb, h1, h2] at hq
      exact Or.inr ⟨b, by simp [← hq, h2]⟩
    · by_cases ht : maxWaitTime < n * pollInterval
      · simp [batchWaitAux, hb, h1, h2, ht] at hq
        exact Or.inl (by simp [← hq])
      · cases hrec : batchWaitAux resp pollInterval maxWaitTime (n + 1) fuel with
        | none => simp [batchWaitAux, hb, h1, h2, ht, hrec] at hq
        | some r =>
          simp [batchWaitAux, hb, h1, h2, ht, hrec] at hq
          have hq1 : q.1 = r.1 := by rw [← hq]
          rw [hq1]
          exact ih (n + 1) r hrec

/-- A constant status sequence that never terminates: every poll succeeds
with status `running`. -/
def constRunningDR : ℕ → DRStatusResp := fun _ => ⟨true, some ("running"), none, ""⟩

/-- A JavaScript value that should be an array: either an actual array or
anything failing `Array.isArray` (including `null`/`undefined` where the
source also checks truthiness). -/
inductive JsArr (α : Type)
  | arr (l : List α)
  | notArray
deriving DecidableEq

/-- A `ResponseLength` value: one of the named sizes (any string at
runtime) or a number. -/
inductive RespLenM
  | strVal (s : String)
  | numVal (q : ℚ)
deriving DecidableEq

/-- The value stored into a payload from a validated source array. -/
def jsArrVal : Option (JsArr String) → Option (List String)
  | some (JsArr.arr l) => some l
  | some JsArr.notArray => none
  | none => none

/-- `SearchOptions`, with every field optional as in the source. -/
structure SearchOptionsM where
  searchType : Option String
  maxNumResults : Option ℚ
  maxPrice : Option ℚ
  isToolCall : Option Bool
  relevanceThreshold : Option ℚ
  includedSources : Option (JsArr String)
  excludeSources : Option (JsArr String)
  category : Option String
  startDate : Option String
  endDate : Option String
  countryCode : Option String
  responseLength : Option RespLenM
  fastMode : Option Bool
  urlOnly : Option Bool
deriving DecidableEq

/-- A `SearchResponse` as synthesized by the client on validation failure or
error (`results_by_source` is flattened into the two count fields). -/
structure SearchRespM where
  success : Bool
  error : Option String
  tx_id : Option String
  query : String
  results : List SRv
  web_count : ℚ
  proprietary_count : ℚ
  total_deduction_dollars : ℚ
  total_characters : ℚ
deriving DecidableEq

/-- The early-return response shape shared by every validation failure and
catch branch of `search`. -/
def failSearchResp (q : String) (err : String) : SearchRespM :=
  ⟨false, some err, none, q, [], 0, 0, 0, 0⟩

/-- The snake_case payload `search` posts to `/deepsearch`; an `Option`
field is present in the posted body exactly when it is `some`. -/
structure SearchPayloadM where
  query : String
  search_type : String
  max_num_results : ℚ
  is_tool_call : Bool
  relevance_threshold : ℚ
  max_price : Option ℚ
  included_sources : Option (List String)
  exclude_sources : Option (List String)
  category : Option String
  start_date : Option String
  end_date : Option String
  country_code : Option String
  response_length : Option RespLenM
  fast_mode : Option Bool
  url_only : Option Bool
deriving DecidableEq

/-- Either an early validation return (no HTTP request is made) or the
payload of the single HTTP request. -/
inductive MethodStep (ρ π : Type)
  | reject (r : ρ)
  | request (p : π)
deriving DecidableEq

/-- JavaScript `String.prototype.toLowerCase`, written structurally. -/
def jsToLower (s : String) : String := ⟨s.toList.map Char.toLower⟩

/-- Membership in the `SearchType` union checked by `search` and `answer`. -/
def searchTypeValid (t : String) : Bool :=
  t = "web" || t = "proprietary" || t = "all" || t = "news"

/-- The `finalSearchType` computation of `search` and `buildAnswerPayload`:
lowercased provided value when valid, `"all"` otherwise. -/
def finalSearchTypeOf (searchType : Option String) : String :=
  match searchType.map jsToLower with
  | some t => if searchTypeValid t then t else "all"
  | none => "all"

/-- The error message for an invalid source list (`join(", ")` of exactly
the invalid elements). -/
def sourcesErrMsg (label : String) (invalid : List String) : String :=
  ("Invalid ") ++ label ++ (" format. Invalid sources: ") ++
    String.intercalate (", ") invalid ++
    (". Sources must be valid URLs, domains (with optional paths), or dataset identifiers in \x27provider/dataset\x27 format.")

/-- The payload built by `search` after validation passes. -/
def searchPayloadOf (q : String) (o : SearchOptionsM) : SearchPayloadM :=
  { query := q
    search_type := finalSearchTypeOf o.searchType
    max_num_results := o.maxNumResults.getD 10
    is_tool_call := o.isToolCall.getD true
    relevance_threshold := o.relevanceThreshold.getD (1 / 2)
    max_price := o.maxPrice
    included_sources := jsArrVal o.includedSources
    exclude_sources := jsArrVal o.excludeSources
    category := o.category
    start_date := o.startDate
    end_date := o.endDate
    country_code := o.countryCode
    response_length := o.responseLength
    fast_mode := o.fastMode
    url_only := o.urlOnly }

/-- The validation pipeline of `Valyu.search`, in source order: searchType,
startDate, endDate, maxNumResults, includedSources, excludeSources; every
failure is an early `return` of a `failSearchResp` (no HTTP request), and
success yields the request payload.  A date option is validated only when
truthy (`options.startDate && !this.validateDateFormat(...)`). -/
def searchModel (isUrl : String → Bool) (q : String) (o : SearchOptionsM) :
    MethodStep SearchRespM SearchPayloadM :=
  let stOk := match o.searchType.map jsToLower with
    | some t => searchTypeValid t
    | none => true
  if stOk = false then
    .reject (failSearchResp q
      ("Invalid searchType provided. Must be one of: all, web, proprietary, news"))
  else if jsTruthyS o.startDate && !validateDateFormat (o.startDate.getD ("")) then
    .reject (failSearchResp q ("Invalid startDate format. Must be YYYY-MM-DD"))
  else if jsTruthyS o.endDate && !validateDateFormat (o.endDate.getD ("")) then
    .reject (failSearchResp q ("Invalid endDate format. Must be YYYY-MM-DD"))
  else if o.maxNumResults.getD 10 < 1 ∨ 100 < o.maxNumResults.getD 10 then
    .reject (failSearchResp q ("maxNumResults must be between 1 and 100"))
  else
    match o.includedSources with
    | some JsArr.notArray =>
      .reject (failSearchResp q ("includedSources must be an array"))
    | some (JsArr.arr inc) =>
      if invalidSourcesOf isUrl inc ≠ [] then
        .reject (failSearchResp q
          (sourcesErrMsg ("includedSources") (invalidSourcesOf isUrl inc)))
      else
        match o.excludeSources with
        | some JsArr.notArray =>
          .reject (failSearchResp q ("excludeSources must be an array"))
        | some (JsArr.arr exc) =>
          if invalidSourcesOf isUrl exc ≠ [] then
            .reject (failSearchResp q
              (sourcesErrMsg ("excludeSources") (invalidSourcesOf isUrl exc)))
          else .request (searchPayloadOf q o)
        | none => .request (searchPayloadOf q o)
    | none =>
      match o.excludeSources with
      | some JsArr.notArray =>
        .reject (failSearchResp q ("excludeSources must be an array"))
      | some (JsArr.arr exc) =>
        if invalidSourcesOf isUrl exc ≠ [] then
          .reject (failSearchResp q
            (sourcesErrMsg ("excludeSources") (invalidSourcesOf isUrl exc)))
        else .request (searchPayloadOf q o)
      | none => .request (searchPayloadOf q o)

/-- `ContentsOptions` (the `summary` value is passthrough-only and is
modelled opaquely). -/
structure ContentsOptionsM where
  summary : Option String
  extractEffort : Option String
  responseLength : Option RespLenM
  maxPriceDollars : Option ℚ
  screenshot : Option Bool
deriving DecidableEq

/-- A `ContentsResponse` as synthesized by the client. -/
structure ContentsRespM where
  success : Bool
  error : Option String
  urls_requested : ℚ
  urls_processed : ℚ
  urls_failed : ℚ
  results : List SRv
  total_cost_dollars : ℚ
  total_characters : ℚ
deriving DecidableEq

/-- The early-return response shape of every validation failure of
`contents`. -/
def failContentsResp (err : String) (requested failed : ℚ) : ContentsRespM :=
  ⟨false, some err, requested, 0, failed, [], 0, 0⟩

/-- The snake_case payload `contents` posts to `/contents`. -/
structure ContentsPayloadM where
  urls : List String
  summary : Option String
  extract_effort : Option String
  response_length : Option RespLenM
  max_price_dollars : Option ℚ
  screenshot : Option Bool
deriving DecidableEq

/-- The payload built by `contents` after validation passes. -/
def contentsPayloadOf (l : List String) (o : ContentsOptionsM) : ContentsPayloadM :=
  ⟨l, o.summary, o.extractEffort, o.responseLength, o.maxPriceDollars, o.screenshot⟩

/-- The validation pipeline of `Valyu.contents`, in source order: urls
array/empty/length, extractEffort (only when truthy), responseLength. -/
def contentsModel (urls : JsArr String) (o : ContentsOptionsM) :
    MethodStep ContentsRespM ContentsPayloadM :=
  match urls with
  | JsArr.notArray => .reject (failContentsResp ("urls must be an array") 0 0)
  | JsArr.arr l =>
    if l.length = 0 then
      .reject (failContentsResp ("urls array cannot be empty") 0 0)
    else if 10 < l.length then
      .reject (failContentsResp ("Maximum 10 URLs allowed per request") l.length l.length)
    else if jsTruthyS o.extractEffort &&
        !(["normal", "high", "auto"].contains (o.extractEffort.getD (""))) then
      .reject (failContentsResp
        ("extractEffort must be \x27normal\x27, \x27high\x27, or \x27auto\x27")
        l.length l.length)
    else
      match o.responseLength with
      | some (RespLenM.strVal s) =>
        if !(["short", "medium", "large", "max"].contains s) then
          .reject (failContentsResp
            ("responseLength must be \x27short\x27, \x27medium\x27, \x27large\x27, \x27max\x27, or a number")
            l.length l.length)
        else .request (contentsPayloadOf l o)
      | some (RespLenM.numVal x) =>
        if x ≤ 0 then
          .reject (failContentsResp ("responseLength number must be positive")
            l.length l.length)
        else .request (contentsPayloadOf l o)
      | none => .request (contentsPayloadOf l o)

/-- `AnswerOptions` (structured output is passthrough-only and modelled
opaquely). -/
structure AnswerOptionsM where
  structuredOutput : Option String
  systemInstructions : Option String
  searchType : Option String
  dataMaxPrice : Option ℚ
  countryCode : Option String
  includedSources : Option (JsArr String)
  excludedSources : Option (JsArr String)
  startDate : Option String
  endDate : Option String
  fastMode : Option Bool
deriving DecidableEq

/-- The payload `buildAnswerPayload` produces for `/answer`. -/
structure AnswerPayloadM where
  query : String
  search_type : String
  data_max_price : Option ℚ
  structured_output : Option String
  system_instructions : Option String
  country_code : Option String
  included_sources : Option (List String)
  excluded_sources : Option (List String)
  start_date : Option String
  end_date : Option String
  fast_mode : Option Bool
deriving DecidableEq

/-- JavaScript whitespace, as stripped by `String.prototype.trim` (space,
tab, line terminators, vertical tab, form feed, no-break space, BOM). -/
def isJsSpace (c : Char) : Bool :=
  c = ' ' || c = '\t' || c = '\n' || c = '\r' || c = (Char.ofNat 11) ||
    c = (Char.ofNat 12) || c = (Char.ofNat 160) || c = (Char.ofNat 65279)

/-- JavaScript `String.prototype.trim`, written structurally. -/
def jsTrim (s : String) : String :=
  ⟨((s.toList.dropWhile isJsSpace).reverse.dropWhile isJsSpace).reverse⟩

/-- `Valyu.buildAnswerPayload`: trimmed query, resolved search type, and the
optional snake_case fields present exactly when provided. -/
def buildAnswerPayloadM (q : String) (o : AnswerOptionsM) : AnswerPayloadM :=
  { query := jsTrim q
    search_type := finalSearchTypeOf o.searchType
    data_max_price := o.dataMaxPrice
    structured_output := o.structuredOutput
    system_instructions := o.systemInstructions.map jsTrim
    country_code := o.countryCode
    included_sources := jsArrVal o.includedSources
    excluded_sources := jsArrVal o.excludedSources
    start_date := o.startDate
    end_date := o.endDate
    fast_mode := o.fastMode }

/-- The request headers stored by the `Valyu` constructor. -/
structure HeadersM where
  contentType : String
  xApiKey : String
deriving DecidableEq

/-- The key the constructor resolves: the `apiKey` argument when truthy,
otherwise the `VALYU_API_KEY` environment variable. -/
def resolvedKeyOf (apiKey envKey : Option String) : Option String :=
  if jsTruthyS apiKey then apiKey else envKey

/-- The `Valyu` constructor: `apiKey` argument falls back to the
`VALYU_API_KEY` environment variable; a still-falsy key throws
`Error("VALYU_API_KEY is not set")`; otherwise the headers are stored. -/
def valyuConstructor (apiKey envKey : Option String) : Except String HeadersM :=
  let k := resolvedKeyOf apiKey envKey
  if jsTruthyS k = false then Except.error ("VALYU_API_KEY is not set")
  else Except.ok ⟨("application/json"), k.getD ("")⟩

/-- An axios rejection as inspected by the catch blocks:
`e.response?.data?.error` and `e.message`. -/
structure AxiosErr where
  respError : Option String
  message : String
deriving DecidableEq

/-- The error string every axios catch block produces:
`e.response?.data?.error || e.message`. -/
def axiosErrMsg (e : AxiosErr) : String := jsOrD e.respError e.message

/-- Opaque server response data (`response.data`), passed through. -/
structure GenData where
  payload : String
deriving DecidableEq

/-- Outcome of one axios call: a resolved response with its HTTP status and
an optional `data.error` field, or a thrown error. -/
inductive AxiosOutcome
  | ok (status : ℕ) (dataError : Option String) (data : GenData)
  | exn (e : AxiosErr)
deriving DecidableEq

/-- The normalized result of a simple wrapped call. -/
structure BasicCallResp where
  success : Bool
  error : Option String
  data : Option GenData
deriving DecidableEq

/-- The `try { …; return { success: true, ...response.data } } catch (e)
{ return { success: false, error: e.response?.data?.error || e.message } }`
shape shared verbatim by `_deepresearchStatus`, `_deepresearchList`,
`_deepresearchCancel`, `_deepresearchDelete`, `_deepresearchTogglePublic`,
`_deepresearchGetAssets`, `_batchCreate`, `_batchStatus`, `_batchListTasks`,
`_batchCancel`, `_batchList`, `_datasourcesList`,
`_datasourcesCategories`. -/
def axiosWrap (h : AxiosOutcome) : BasicCallResp :=
  match h with
  | .ok _ _ d => ⟨true, none, some d⟩
  | .exn e => ⟨false, some (axiosErrMsg e), none⟩

def drStatusCall (h : AxiosOutcome) : BasicCallResp := axiosWrap h

def drListCall (h : AxiosOutcome) : BasicCallResp := axiosWrap h

def drCancelCall (h : AxiosOutcome) : BasicCallResp := axiosWrap h

def drDeleteCall (h : AxiosOutcome) : BasicCallResp := axiosWrap h

def drTogglePublicCall (h : AxiosOutcome) : BasicCallResp := axiosWrap h

def drGetAssetsCall (h : AxiosOutcome) : BasicCallResp := axiosWrap h

def batchCreateCall (h : AxiosOutcome) : BasicCallResp := axiosWrap h

def batchStatusCall (h : AxiosOutcome) : BasicCallResp := axiosWrap h

def batchListTasksCall (h : AxiosOutcome) : BasicCallResp := axiosWrap h

def batchCancelCall (h : AxiosOutcome) : BasicCallResp := axiosWrap h

def batchListCall (h : AxiosOutcome) : BasicCallResp := axiosWrap h

def datasourcesListCall (h : AxiosOutcome) : BasicCallResp := axiosWrap h

def datasourcesCategoriesCall (h : AxiosOutcome) : BasicCallResp := axiosWrap h

/-- `_deepresearchCreate`: `query ?? input` must have a truthy trim, then
the wrapped call (payload assembly is passthrough shaping). -/
def drCreateCall (query input : Option String) (h : AxiosOutcome) : BasicCallResp :=
  let qv := match query with
    | some v => some v
    | none => input
  if jsTruthyS (qv.map jsTrim) = false then
    ⟨false, some ("query is required and cannot be empty"), none⟩
  else axiosWrap h

/-- `_deepresearchUpdate`: `instruction?.trim()` must be truthy, then the
wrapped call. -/
def drUpdateCall (instruction : Option String) (h : AxiosOutcome) : BasicCallResp :=
  if jsTruthyS (instruction.map jsTrim) = false then
    ⟨false, some ("instruction is required and cannot be empty"), none⟩
  else axiosWrap h

/-- One task input of `batch.addTasks` (only the fields validation reads). -/
structure BatchTaskInM where
  query : Option String
  input : Option String
  rest : String
deriving DecidableEq

/-- `_batchAddTasks`: array / emptiness / length-100 / per-task query
validation, then the wrapped call. -/
def batchAddTasksCall (tasks : Option (JsArr BatchTaskInM)) (h : AxiosOutcome) :
    BasicCallResp :=
  match tasks with
  | none => ⟨false, some ("tasks must be an array"), none⟩
  | some JsArr.notArray => ⟨false, some ("tasks must be an array"), none⟩
  | some (JsArr.arr l) =>
    if l.length = 0 then ⟨false, some ("tasks array cannot be empty"), none⟩
    else if 100 < l.length then
      ⟨false, some ("Maximum 100 tasks allowed per request"), none⟩
    else if l.any (fun t => !(jsTruthyS t.query || jsTruthyS t.input)) then
      ⟨false, some ("Each task must have a \x27query\x27 field"), none⟩
    else axiosWrap h

/-- Either a client-synthesized response or the server data passed
through. -/
inductive HttpRespM (ρ : Type)
  | client (r : ρ)
  | server (d : GenData)
deriving DecidableEq

/-- `Valyu.search` around its single HTTP call: validation, then the axios
post; a non-2xx status yields the `error: response.data?.error` failure
shape and an exception yields the catch shape. -/
def searchRun (isUrl : String → Bool) (q : String) (o : SearchOptionsM)
    (h : AxiosOutcome) : HttpRespM SearchRespM :=
  match searchModel isUrl q o with
  | .reject r => .client r
  | .request _ =>
    match h with
    | .ok status dataError d =>
      if status < 200 ∨ 300 ≤ status then
        .client ⟨false, dataError, none, q, [], 0, 0, 0, 0⟩
      else .server d
    | .exn e => .client (failSearchResp q (axiosErrMsg e))

/-- `Valyu.contents` around its single HTTP call. -/
def contentsRun (urls : JsArr String) (o : ContentsOptionsM) (h : AxiosOutcome) :
    HttpRespM ContentsRespM :=
  match contentsModel urls o with
  | .reject r => .client r
  | .request p =>
    match h with
    | .ok status dataError d =>
      if status < 200 ∨ 300 ≤ status then
        .client (failContentsResp (jsOrD dataError ("Request failed"))
          p.urls.length p.urls.length)
      else .server d
    | .exn e =>
      .client (failContentsResp (axiosErrMsg e) p.urls.length p.urls.length)

/-- Outcome of the `fetch` call of `fetchAnswer`: a response with `ok` flag,
status, the parsed error body used when `!ok`, and the body chunks; or a
thrown error with its message. -/
inductive FetchOutcome
  | ok (okFlag : Bool) (status : ℕ) (errBody : Option String) (chunks : List (List Char))
  | exn (message : String)
deriving DecidableEq

/-- The whole of `fetchAnswer`: HTTP error body handling, stream draining,
response assembly, and the catch branch
(`error: e.message || "Request failed"`). -/
def fetchAnswerModel (jp : List Char → Option ParsedPayload) (payloadQuery : String)
    (h : FetchOutcome) : AnswerRespM :=
  match h with
  | .exn m => .err (jsOrD (some m) ("Request failed"))
  | .ok okFlag status errBody chunks =>
    if okFlag = false then
      .err (jsOrD errBody (("HTTP Error: ") ++ toString status))
    else fetchAnswerResult jp payloadQuery chunks

/-- Validity of a provided source-array option: absent is fine, a non-array
is invalid, an array is valid when it has no invalid element. -/
def includedOk (isUrl : String → Bool) (v : Option (JsArr String)) : Bool :=
  match v with
  | some (JsArr.arr l) => decide (invalidSourcesOf isUrl l = [])
  | some JsArr.notArray => false
  | none => true

theorem searchModel_reject_shape (isUrl : String → Bool) (q : String)
    (o : SearchOptionsM) (r : SearchRespM)
    (h : searchModel isUrl q o = MethodStep.reject r) :
    ∃ msg, r = failSearchResp q msg := by
  simp only [searchModel] at h
  repeat' split at h
  all_goals (cases h)
  all_goals exact ⟨_, rfl⟩

theorem searchModel_request_inv (isUrl : String → Bool) (q : String)
    (o : SearchOptionsM) (p : SearchPayloadM)
    (h : searchModel isUrl q o = MethodStep.request p) :
    ((match o.searchType.map jsToLower with
      | some t => searchTypeValid t
      | none => true) = true) ∧
    (jsTruthyS o.startDate && !validateDateFormat (o.startDate.getD (""))) = false ∧
    (jsTruthyS o.endDate && !validateDateFormat (o.endDate.getD (""))) = false ∧
    ¬(o.maxNumResults.getD 10 < 1 ∨ 100 < o.maxNumResults.getD 10) ∧
    includedOk isUrl o.includedSources = true ∧
    includedOk isUrl o.excludeSources = true ∧
    p = searchPayloadOf q o := by
  simp only [searchModel] at h
  repeat' split at h
  all_goals (cases h)
  all_goals simp_all [includedOk]

theorem contentsModel_reject_shape (urls : JsArr String) (o : ContentsOptionsM)
    (r : ContentsRespM) (h : contentsModel urls o = MethodStep.reject r) :
    ∃ msg requested failed, r = failContentsResp msg requested failed := by
  simp only [contentsModel] at h
  repeat' split at h
  all_goals (cases h)
  all_goals exact ⟨_, _, _, rfl⟩

theorem contentsModel_request_inv (urls : JsArr String) (o : ContentsOptionsM)
    (p : ContentsPayloadM) (h : contentsModel urls o = MethodStep.request p) :
    ∃ l, urls = JsArr.arr l ∧ l.length ≠ 0 ∧ l.length ≤ 10 ∧
      p = contentsPayloadOf l o := by
  simp only [contentsModel] at h
  repeat' split at h
  all_goals (cases h)
  all_goals (rename_i hne h10 _; exact ⟨_, rfl, by omega, by omega, rfl⟩)

/-- Rejoining a split with the separator, inverse of `splitCh`. -/
def unsplitCh (c : Char) : List (List Char) → List Char
  | [] => []
  | [l] => l
  | l :: ls => l ++ c :: unsplitCh c ls

theorem unsplitCh_splitCh (c : Char) (l : List Char) :
    unsplitCh c (splitCh c l) = l := by
  induction l with
  | nil => rfl
  | cons x xs ih =>
    obtain ⟨m, ms, hm⟩ := List.exists_cons_of_ne_nil (splitCh_ne_nil c xs)
    rw [hm] at ih
    by_cases hx : x = c
    · subst hx
      simp only [splitCh, if_pos rfl, hm]
      cases ms <;> simpa [unsplitCh] using ih
    · simp only [splitCh, hx, if_neg, ite_false, hm]
      cases ms with
      | nil => simpa [unsplitCh] using ih
      | cons y ys =>
        simp only [unsplitCh, List.cons_append] at ih ⊢
        rw [ih]

theorem splitCh_components_not_mem (c : Char) (l : List Char) :
    ∀ p ∈ splitCh c l, c ∉ p := by
  induction l with
  | nil => simp [splitCh]
  | cons x xs ih =>
    obtain ⟨m, ms, hm⟩ := List.exists_cons_of_ne_nil (splitCh_ne_nil c xs)
    rw [hm] at ih
    by_cases hx : x = c
    · subst hx
      simp only [splitCh, if_pos rfl, hm]
      intro p hp
      rcases List.mem_cons.mp hp with h | h
      · simp [h]
      · exact ih p (hm ▸ h)
    · simp only [splitCh, hx, if_neg, ite_false, hm]
      intro p hp
      rcases List.mem_cons.mp hp with h | h
      · subst h
        have hcm : c ∉ m := ih m (by simp)
        simp only [List.mem_cons, not_or]
        exact ⟨fun hc => hx hc.symm, hcm⟩
      · exact ih p (by simp [h])

theorem splitCh_concat_pair (c : Char) (a b : List Char) (ha : c ∉ a) (hb : c ∉ b) :
    splitCh c (a ++ c :: b) = [a, b] := by
  induction a with
  | nil => simp [splitCh, splitCh_of_not_mem c b hb]
  | cons x xs ih =>
    simp only [List.mem_cons, not_or] at ha
    have hx : ¬ x = c := fun hc => ha.1 hc.symm
    simp [splitCh, hx, ih ha.2]

theorem splitCh_pair_iff (c : Char) (l a b : List Char) :
    splitCh c l = [a, b] ↔ (l = a ++ c :: b ∧ c ∉ a ∧ c ∉ b) := by
  constructor
  · intro h
    have ha : c ∉ a := splitCh_components_not_mem c l a (by simp [h])
    have hb : c ∉ b := splitCh_components_not_mem c l b (by simp [h])
    have hl := unsplitCh_splitCh c l
    rw [h] at hl
    exact ⟨by simpa [unsplitCh] using hl.symm, ha, hb⟩
  · rintro ⟨rfl, ha, hb⟩
    exact splitCh_concat_pair c a b ha hb

theorem cutCh_of_not_mem (c : Char) (l : List Char) (h : c ∉ l) :
    cutCh c l = (l, none) := by
  induction l with
  | nil => rfl
  | cons x xs ih =>
    simp only [List.mem_cons, not_or] at h
    have hx : ¬ x = c := fun hc => h.1 hc.symm
    simp [cutCh, hx, ih h.2]

theorem cutCh_concat (c : Char) (a b : List Char) (ha : c ∉ a) :
    cutCh c (a ++ c :: b) = (a, some b) := by
  induction a with
  | nil => simp [cutCh]
  | cons x xs ih =>
    simp only [List.mem_cons, not_or] at ha
    have hx : ¬ x = c := fun hc => ha.1 hc.symm
    simp [cutCh, hx, ih ha.2]

theorem cutCh_none_inv (c : Char) (l a : List Char) (h : cutCh c l = (a, none)) :
    a = l ∧ c ∉ l := by
  induction l generalizing a with
  | nil =>
    simp only [cutCh, Prod.mk.injEq] at h
    simp [← h.1]
  | cons x xs ih =>
    by_cases hx : x = c
    · simp [cutCh, hx] at h
    · simp only [cutCh, hx, if_neg, ite_false, Prod.mk.injEq] at h
      have hxs : cutCh c xs = ((cutCh c xs).1, none) := by
        rw [← h.2]
      obtain ⟨h1, h2⟩ := ih ((cutCh c xs).1) hxs
      refine ⟨by rw [← h.1, h1], ?_⟩
      simp only [List.mem_cons, not_or]
      exact ⟨fun hc => hx hc.symm, h2⟩

theorem cutCh_some_inv (c : Char) (l a b : List Char) (h : cutCh c l = (a, some b)) :
    l = a ++ c :: b ∧ c ∉ a := by
  induction l generalizing a with
  | nil => simp [cutCh] at h
  | cons x xs ih =>
    by_cases hx : x = c
    · subst hx
      rw [show cutCh x (x :: xs) = ([], some xs) from by simp [cutCh]] at h
      cases h
      simp
    · simp only [cutCh, hx, if_neg, ite_false, Prod.mk.injEq] at h
      have hxs : cutCh c xs = ((cutCh c xs).1, some b) := by
        rw [← h.2]
      obtain ⟨h1, h2⟩ := ih ((cutCh c xs).1) hxs
      constructor
      · rw [← h.1, List.cons_append]
        exact congrArg (List.cons x) h1
      · rw [← h.1]
        simp only [List.mem_cons, not_or]
        exact ⟨fun hc => hx hc.symm, h2⟩

theorem validateDatasetId_iff (s : String) :
    validateDatasetId s = true ↔
      ∃ a b : List Char, s.toList = a ++ '/' :: b ∧ '/' ∉ a ∧ '/' ∉ b ∧
        a ≠ [] ∧ b ≠ [] ∧ (a ++ b).all isIdChar = true := by
  constructor
  · intro h
    unfold validateDatasetId at h
    split at h
    case _ a b heq =>
      obtain ⟨hl, ha, hb⟩ := (splitCh_pair_iff '/' s.toList a b).mp heq
      simp only [Bool.and_eq_true, decide_eq_true_eq] at h
      refine ⟨a, b, hl, ha, hb, ?_, ?_, ?_⟩
      · intro hnil
        rw [hnil] at h
        simp at h
      · intro hnil
        rw [hnil] at h
        simp at h
      · simp [List.all_append, h.1.1.1, h.1.1.2]
    case _ => simp at h
  · rintro ⟨a, b, hl, ha, hb, hane, hbne, hall⟩
    have hsp : splitCh '/' s.toList = [a, b] :=
      (splitCh_pair_iff '/' s.toList a b).mpr ⟨hl, ha, hb⟩
    unfold validateDatasetId
    rw [hsp]
    simp only [List.all_append, Bool.and_eq_true] at hall
    simp [hall.1, hall.2, List.length_pos, hane, hbne]

theorem validateDomain_iff (s : String) :
    validateDomain s = true ↔
      (('/' ∉ s.toList) ∧ domainLabelsOk s.toList = true) ∨
      (∃ dom path : List Char, s.toList = dom ++ '/' :: path ∧ '/' ∉ dom ∧
        domainLabelsOk dom = true ∧ path ≠ [] ∧ path.all isRegexAnyChar = true) := by
  constructor
  · intro h
    unfold validateDomain at h
    split at h
    case _ dom heq =>
      obtain ⟨h1, h2⟩ := cutCh_none_inv '/' s.toList dom heq
      exact Or.inl ⟨h2, by rw [← h1]; exact h⟩
    case _ dom path heq =>
      obtain ⟨h1, h2⟩ := cutCh_some_inv '/' s.toList dom path heq
      simp only [Bool.and_eq_true, decide_eq_true_eq] at h
      exact Or.inr ⟨dom, path, h1, h2, h.1.1, h.1.2, h.2⟩
  · intro h
    rcases h with ⟨hmem, hok⟩ | ⟨dom, path, hl, hmem, hok, hne, hall⟩
    · unfold validateDomain
      rw [cutCh_of_not_mem '/' s.toList hmem]
      exact hok
    · unfold validateDomain
      rw [hl, cutCh_concat '/' dom path hmem]
      simp [hok, hne, hall]

theorem finalSearchTypeOf_of_valid (st : Option String)
    (h : (match st.map jsToLower with
          | some t => searchTypeValid t
          | none => true) = true) :
    finalSearchTypeOf st = (st.map jsToLower).getD ("all") := by
  cases st with
  | none => rfl
  | some t =>
    simp only [Option.map] at h
    simp [finalSearchTypeOf, h]

theorem searchModel_included_invalid (isUrl : String → Bool) (q : String)
    (o : SearchOptionsM) (inc : List String)
    (hst : (match o.searchType.map jsToLower with
            | some t => searchTypeValid t
            | none => true) = true)
    (hsd : (jsTruthyS o.startDate && !validateDateFormat (o.startDate.getD (""))) = false)
    (hed : (jsTruthyS o.endDate && !validateDateFormat (o.endDate.getD (""))) = false)
    (hmx : ¬(o.maxNumResults.getD 10 < 1 ∨ 100 < o.maxNumResults.getD 10))
    (hinc : o.includedSources = some (JsArr.arr inc))
    (hbad : invalidSourcesOf isUrl inc ≠ []) :
    searchModel isUrl q o =
      MethodStep.reject (failSearchResp q
        (sourcesErrMsg ("includedSources") (invalidSourcesOf isUrl inc))) := by
  simp [searchModel, hst, hsd, hed, hmx, hinc, hbad]

theorem searchModel_exclude_invalid (isUrl : String → Bool) (q : String)
    (o : SearchOptionsM) (exc : List String)
    (hst : (match o.searchType.map jsToLower with
            | some t => searchTypeValid t
            | none => true) = true)
    (hsd : (jsTruthyS o.startDate && !validateDateFormat (o.startDate.getD (""))) = false)
    (hed : (jsTruthyS o.endDate && !validateDateFormat (o.endDate.getD (""))) = false)
    (hmx : ¬(o.maxNumResults.getD 10 < 1 ∨ 100 < o.maxNumResults.getD 10))
    (hincOk : includedOk isUrl o.includedSources = true)
    (hexc : o.excludeSources = some (JsArr.arr exc))
    (hbad : invalidSourcesOf isUrl exc ≠ []) :
    searchModel isUrl q o =
      MethodStep.reject (failSearchResp q
        (sourcesErrMsg ("excludeSources") (invalidSourcesOf isUrl exc))) := by
  cases hinc : o.includedSources with
  | none => simp [searchModel, hst, hsd, hed, hmx, hinc, hexc, hbad]
  | some v =>
    cases v with
    | notArray => simp [includedOk, hinc] at hincOk
    | arr inc =>
      rw [hinc] at hincOk
      simp only [includedOk, decide_eq_true_eq] at hincOk
      simp [searchModel, hst, hsd, hed, hmx, hinc, hincOk, hexc, hbad]

/-- A constant batch-status sequence that never terminates. -/
def constProcessingBatch : ℕ → BatchStatusResp :=
  fun _ => ⟨true, some ⟨("processing"), ("")⟩, none⟩

/-- A status sequence whose first poll is `running` and whose second poll is
`completed`. -/
def exampleSeqDR : ℕ → DRStatusResp := fun n =>
  if n = 0 then ⟨true, some ("running"), none, ("")⟩
  else ⟨true, some ("completed"), none, ("")⟩

/-- A `JSON.parse` oracle that rejects every payload. -/
def jpNone : List Char → Option ParsedPayload := fun _ => none

/-- C1 (amended).  `deepresearch.wait` and `batch.waitForCompletion` are
bounded poll loops: for every positive poll interval and every sequence of
successful status responses they finish within `maxWaitTime/pollInterval + 2`
polls, either returning a terminal status or stopping with the
"Maximum wait time exceeded" error.  `deepresearch.stream`, however, has no
timeout: on a sequence of successful, never-terminal statuses it never
finishes, for any amount of fuel. -/
theorem c1_theorem (pollInterval maxWaitTime : ℕ) (hpi : 0 < pollInterval)
    (resp : ℕ → DRStatusResp) (bresp : ℕ → BatchStatusResp)
    (sresp : ℕ → DRStatusResp) :
    ((∀ n, (resp n).success = true) →
      ∃ q, drWaitRun resp pollInterval maxWaitTime = some q ∧
        (q.1 = WaitResult.errTimeout ∨
          ∃ s, q.1 = WaitResult.ok s ∧ isTerminalDR s = true)) ∧
    ((∀ n, (bresp n).success = true ∧ (bresp n).batch.isSome = true) →
      ∃ q, batchWaitRun bresp pollInterval maxWaitTime = some q ∧
        (q.1 = BatchWaitResult.errTimeout ∨
          ∃ b, q.1 = BatchWaitResult.ok b ∧ isTerminalBatch b = true)) ∧
    ((∀ n, isRunningDR (sresp n) = true) →
      ∀ fuel, drStreamAux sresp 0 fuel = none) := by
  have hfuel : drWaitFuel pollInterval maxWaitTime =
      (maxWaitTime / pollInterval + 1) + 1 := rfl
  refine ⟨?_, ?_, ?_⟩
  · intro hall
    have hs := drWaitAux_isSome resp pollInterval maxWaitTime hpi
      (maxWaitTime / pollInterval + 1) 0 (by omega)
    have hsome : (drWaitRun resp pollInterval maxWaitTime).isSome = true := by
      unfold drWaitRun
      rw [hfuel]
      exact hs
    obtain ⟨q, hq⟩ := Option.isSome_iff_exists.mp hsome
    refine ⟨q, hq, ?_⟩
    exact drWaitAux_success_outcome resp pollInterval maxWaitTime hall _ 0 q hq
  · intro hall
    have hs := batchWaitAux_isSome bresp pollInterval maxWaitTime hpi
      (maxWaitTime / pollInterval + 1) 0 (by omega)
    have hsome : (batchWaitRun bresp pollInterval maxWaitTime).isSome = true := by
      unfold batchWaitRun
      rw [hfuel]
      exact hs
    obtain ⟨q, hq⟩ := Option.isSome_iff_exists.mp hsome
    refine ⟨q, hq, ?_⟩
    exact batchWaitAux_success_outcome bresp pollInterval maxWaitTime hall _ 0 q hq
  · intro hall fuel
    exact drStreamAux_none_of_running sresp hall fuel 0

/-- C1 counterexample.  With the defaults of the claim (`maxWaitTime` 7200000 ms
and the fixed 5000 ms interval of `_deepresearchStream`), the elapsed time
after 1443 polls is 7215000 ms, beyond `maxWaitTime`; yet `deepresearch.stream`
on an all-`running` status sequence is still polling — it neither returned
nor invoked a terminal callback, so it does not stop with
"Maximum wait time exceeded" as claimed. -/
theorem c1_counterexample :
    drStreamAux constRunningDR 0 1443 = none ∧ 7200000 < 1443 * 5000 := by
  constructor
  · exact drStreamAux_none_of_running constRunningDR (fun n => rfl) 1443 0
  · norm_num

/-- C1 witness: the amended theorem applied at pollInterval 5 ms and
maxWaitTime 12 ms on constant non-terminal sequences. -/
theorem c1_witness :
    (∃ q, drWaitRun constRunningDR 5 12 = some q ∧
      (q.1 = WaitResult.errTimeout ∨
        ∃ s, q.1 = WaitResult.ok s ∧ isTerminalDR s = true)) ∧
    (∃ q, batchWaitRun constProcessingBatch 5 12 = some q ∧
      (q.1 = BatchWaitResult.errTimeout ∨
        ∃ b, q.1 = BatchWaitResult.ok b ∧ isTerminalBatch b = true)) ∧
    drStreamAux constRunningDR 0 10 = none := by
  have h := c1_theorem 5 12 (by norm_num) constRunningDR constProcessingBatch constRunningDR
  exact ⟨h.1 (fun n => rfl), h.2.1 (fun n => ⟨rfl, rfl⟩), h.2.2 (fun n => rfl) 10⟩

/-- C2.  SSE reassembly is chunking-invariant: two chunkings of the same
decoded body produce the same stream chunk sequence from `streamAnswer` and
the same assembled response from `fetchAnswer`. -/
theorem c2_theorem (jp : List Char → Option ParsedPayload) (payloadQuery : String)
    (chunksA chunksB : List (List Char)) (h : chunksA.flatten = chunksB.flatten) :
    streamAnswerChunks jp chunksA = streamAnswerChunks jp chunksB ∧
      fetchAnswerResult jp payloadQuery chunksA =
        fetchAnswerResult jp payloadQuery chunksB := by
  have hA := sseRun_eq [] (by simp) chunksA
  have hB := sseRun_eq [] (by simp) chunksB
  have hlines : (sseRun [] chunksA).1 = (sseRun [] chunksB).1 := by
    rw [hA, hB]
    simp [h]
  constructor
  · simp [streamAnswerChunks, hlines]
  · simp [fetchAnswerResult, fetchAnswerAcc, hlines]

/-- C2 witness: the same body split as
`"data: [DO" ⧺ "NE]\nx"` and as `"data: [DONE]\n" ⧺ "x"`. -/
theorem c2_witness :
    ([("data: [DO").toList, ("NE]\nx").toList].flatten =
      [("data: [DONE]\n").toList, ("x").toList].flatten) ∧
    streamAnswerChunks jpNone [("data: [DO").toList, ("NE]\nx").toList] =
      streamAnswerChunks jpNone [("data: [DONE]\n").toList, ("x").toList] ∧
    fetchAnswerResult jpNone ("q") [("data: [DO").toList, ("NE]\nx").toList] =
      fetchAnswerResult jpNone ("q") [("data: [DONE]\n").toList, ("x").toList] := by
  have h := c2_theorem jpNone ("q")
    [("data: [DO").toList, ("NE]\nx").toList]
    [("data: [DONE]\n").toList, ("x").toList] (by decide)
  exact ⟨by decide, h.1, h.2⟩

/-- C3.  Characterization of `deepresearch.wait` on its polled statuses:
while every polled status is a successful non-terminal one within the time
budget, the loop keeps polling; if poll `k` then fails (`success: false`) the
loop throws `Error(status.error)` at once and `onProgress` saw exactly polls
`0..k-1` in order; if poll `k` is the first terminal status the loop returns
it and `onProgress` saw exactly polls `0..k` (the terminal one included) in
order. -/
theorem c3_theorem (resp : ℕ → DRStatusResp) (pollInterval maxWaitTime k : ℕ)
    (hpi : 0 < pollInterval)
    (hbefore : ∀ j, j < k → (resp j).success = true ∧ isTerminalDR (resp j) = false)
    (htime : ∀ j, j < k → j * pollInterval ≤ maxWaitTime) :
    ((resp k).success = false →
      drWaitRun resp pollInterval maxWaitTime =
        some (WaitResult.errFail (resp k).error, (List.range k).map resp)) ∧
    ((resp k).success = true → isTerminalDR (resp k) = true →
      drWaitRun resp pollInterval maxWaitTime =
        some (WaitResult.ok (resp k), (List.range (k + 1)).map resp)) := by
  have hk : k + 1 ≤ drWaitFuel pollInterval maxWaitTime := by
    unfold drWaitFuel
    rcases Nat.eq_zero_or_pos k with hk0 | hkpos
    · subst hk0
      exact Nat.le_add_left 1 (maxWaitTime / pollInterval + 1)
    · have ht := htime (k - 1) (by omega)
      have hle : k - 1 ≤ maxWaitTime / pollInterval :=
        (Nat.le_div_iff_mul_le hpi).mpr ht
      omega
  obtain ⟨m, hm⟩ : ∃ m, drWaitFuel pollInterval maxWaitTime = k + (m + 1) :=
    ⟨drWaitFuel pollInterval maxWaitTime - k - 1, by omega⟩
  have hrun := drWaitAux_run resp pollInterval maxWaitTime k 0 (m + 1)
    (by
      intro j hj
      have h1 := hbefore j hj
      have h2 := htime j hj
      simpa using ⟨h1.1, h1.2, h2⟩)
  simp only [Nat.zero_add] at hrun
  have hzero : ((fun j => resp (0 + j)) : ℕ → DRStatusResp) = resp := by
    funext j
    simp
  constructor
  · intro hfail
    unfold drWaitRun
    rw [hm, hrun, drWaitAux_halt_fail resp pollInterval maxWaitTime k m hfail]
    simp [hzero]
  · intro hsucc hterm
    unfold drWaitRun
    rw [hm, hrun, drWaitAux_halt_ok resp pollInterval maxWaitTime k m hsucc hterm]
    simp [hzero, List.range_succ]

/-- C3 witness: on a sequence that is `running` then `completed`, with
pollInterval 5 ms and maxWaitTime 12 ms, `wait` returns the poll-1 status and
`onProgress` saw polls 0 and 1 in order. -/
theorem c3_witness :
    drWaitRun exampleSeqDR 5 12 =
      some (WaitResult.ok (exampleSeqDR 1), (List.range 2).map exampleSeqDR) := by
  have h := c3_theorem exampleSeqDR 5 12 1 (by norm_num)
    (fun j hj => by
      have hj0 : j = 0 := by omega
      subst hj0
      exact ⟨by decide, by decide⟩)
    (fun j hj => by omega)
  exact h.2 (by decide) (by decide)

theorem sseRun_drop_trailing
    (chunks : List (List Char)) (tail : List Char) (htail : '\n' ∉ tail) :
    (sseRun [] (chunks ++ [tail])).1 = (sseRun [] chunks).1 := by
  rw [sseRun_eq [] (by simp) (chunks ++ [tail]), sseRun_eq [] (by simp) chunks]
  simp only [List.nil_append]
  have hflat : (chunks ++ [tail]).flatten = chunks.flatten ++ tail := by simp
  rw [hflat, splitCh_append_eq '\n' chunks.flatten tail]
  have hnm : '\n' ∉ (splitCh '\n' chunks.flatten).getLastD [] ++ tail := by
    intro hmem
    rcases List.mem_append.mp hmem with h1 | h1
    · exact splitCh_getLastD_not_mem '\n' chunks.flatten h1
    · exact htail h1
  rw [splitCh_of_not_mem '\n' _ hnm]
  simp [List.dropLast_concat]

/-- C4.  Gating of the SSE line parsers: a complete line not starting with
`data: ` produces nothing in either parser; the payload `[DONE]` yields a
`done` chunk in `streamAnswer` and is skipped by `fetchAnswer`; a payload
`JSON.parse` rejects is silently skipped; and a trailing line left
unterminated when the stream ends stays in the buffer and is never
processed. -/
theorem c4_theorem (jp : List Char → Option ParsedPayload) :
    (∀ line : List Char, line.take 6 ≠ dataMarker →
      processLineStream jp line = [] ∧ ∀ acc, processLineFetch jp acc line = acc) ∧
    (∀ line : List Char, line.take 6 = dataMarker → line.drop 6 = doneToken →
      processLineStream jp line = [AnswerChunkM.done] ∧
        ∀ acc, processLineFetch jp acc line = acc) ∧
    (∀ line : List Char, line.take 6 = dataMarker → line.drop 6 ≠ doneToken →
      jp (line.drop 6) = none →
      processLineStream jp line = [] ∧ ∀ acc, processLineFetch jp acc line = acc) ∧
    (∀ (chunks : List (List Char)) (tail : List Char), '\n' ∉ tail →
      streamAnswerChunks jp (chunks ++ [tail]) = streamAnswerChunks jp chunks ∧
      ∀ payloadQuery, fetchAnswerResult jp payloadQuery (chunks ++ [tail]) =
        fetchAnswerResult jp payloadQuery chunks) := by
  refine ⟨?_, ?_, ?_, ?_⟩
  · intro line hl
    exact ⟨by simp [processLineStream, hl], fun acc => by simp [processLineFetch, hl]⟩
  · intro line hl hdone
    exact ⟨by simp [processLineStream, hl, hdone],
      fun acc => by simp [processLineFetch, hl, hdone]⟩
  · intro line hl hdone hjp
    exact ⟨by simp [processLineStream, hl, hdone, hjp],
      fun acc => by simp [processLineFetch, hl, hdone, hjp]⟩
  · intro chunks tail htail
    have hlines := sseRun_drop_trailing chunks tail htail
    exact ⟨by simp [streamAnswerChunks, hlines],
      fun payloadQuery => by simp [fetchAnswerResult, fetchAnswerAcc, hlines]⟩

/-- C4 witness: the four gates evaluated on concrete lines. -/
theorem c4_witness :
    processLineStream jpNone (("event: ping").toList) = [] ∧
    processLineStream jpNone (("data: [DONE]").toList) = [AnswerChunkM.done] ∧
    processLineStream jpNone (("data: nonsense").toList) = [] ∧
    streamAnswerChunks jpNone [("data: [DONE]").toList] = [] := by
  have h := c4_theorem jpNone
  refine ⟨(h.1 _ (by decide)).1, (h.2.1 _ (by decide) (by decide)).1,
    (h.2.2.1 _ (by decide) (by decide) (by simp [jpNone])).1, ?_⟩
  have h4 := (h.2.2.2 [] (("data: [DONE]").toList) (by decide)).1
  simpa [streamAnswerChunks, sseRun] using h4

/-- C5.  Source validation: a source passes exactly when the URL oracle
accepts it, or it matches the domain pattern (`.`-separated labels of
alphanumerics and hyphens, neither leading nor trailing hyphen, at most 63
characters per label, at least two labels, optional nonempty `/path`
suffix), or it is a dataset identifier with exactly one `/` separating two
nonempty parts of alphanumerics, hyphens and underscores; and when a source
array given to `search` has invalid elements (all earlier validations
passing), the call rejects with the message listing exactly the invalid
elements, issuing no request. -/
theorem c5_theorem (isUrl : String → Bool) :
    (∀ s, validateSource isUrl s =
      (isUrl s || validateDomain s || validateDatasetId s)) ∧
    (∀ s, validateDatasetId s = true ↔
      ∃ a b : List Char, s.toList = a ++ '/' :: b ∧ '/' ∉ a ∧ '/' ∉ b ∧
        a ≠ [] ∧ b ≠ [] ∧ (a ++ b).all isIdChar = true) ∧
    (∀ s, validateDomain s = true ↔
      (('/' ∉ s.toList) ∧ domainLabelsOk s.toList = true) ∨
      (∃ dom path : List Char, s.toList = dom ++ '/' :: path ∧ '/' ∉ dom ∧
        domainLabelsOk dom = true ∧ path ≠ [] ∧ path.all isRegexAnyChar = true)) ∧
    (∀ (q : String) (o : SearchOptionsM) (inc : List String),
      (match o.searchType.map jsToLower with
       | some t => searchTypeValid t
       | none => true) = true →
      (jsTruthyS o.startDate && !validateDateFormat (o.startDate.getD (""))) = false →
      (jsTruthyS o.endDate && !validateDateFormat (o.endDate.getD (""))) = false →
      ¬(o.maxNumResults.getD 10 < 1 ∨ 100 < o.maxNumResults.getD 10) →
      o.includedSources = some (JsArr.arr inc) →
      invalidSourcesOf isUrl inc ≠ [] →
      searchModel isUrl q o = MethodStep.reject (failSearchResp q
        (sourcesErrMsg ("includedSources") (invalidSourcesOf isUrl inc)))) ∧
    (∀ (q : String) (o : SearchOptionsM) (exc : List String),
      (match o.searchType.map jsToLower with
       | some t => searchTypeValid t
       | none => true) = true →
      (jsTruthyS o.startDate && !validateDateFormat (o.startDate.getD (""))) = false →
      (jsTruthyS o.endDate && !validateDateFormat (o.endDate.getD (""))) = false →
      ¬(o.maxNumResults.getD 10 < 1 ∨ 100 < o.maxNumResults.getD 10) →
      includedOk isUrl o.includedSources = true →
      o.excludeSources = some (JsArr.arr exc) →
      invalidSourcesOf isUrl exc ≠ [] →
      searchModel isUrl q o = MethodStep.reject (failSearchResp q
        (sourcesErrMsg ("excludeSources") (invalidSourcesOf isUrl exc)))) := by
  refine ⟨fun s => rfl, validateDatasetId_iff, validateDomain_iff, ?_, ?_⟩
  · intro q o inc hst hsd hed hmx hinc hbad
    exact searchModel_included_invalid isUrl q o inc hst hsd hed hmx hinc hbad
  · intro q o exc hst hsd hed hmx hincOk hexc hbad
    exact searchModel_exclude_invalid isUrl q o exc hst hsd hed hmx hincOk hexc hbad

/-- An oracle under which no string is a URL. -/
def noUrlOracle : String → Bool := fun _ => false

/-- Search options whose `includedSources` has one invalid element. -/
def exampleBadSourcesOptions : SearchOptionsM :=
  { searchType := none, maxNumResults := none, maxPrice := none, isToolCall := none,
    relevanceThreshold := none,
    includedSources := some (JsArr.arr [("not a source!!")]),
    excludeSources := none, category := none, startDate := none, endDate := none,
    countryCode := none, responseLength := none, fastMode := none, urlOnly := none }

/-- C5 witness: the dataset characterization instantiated on a concrete id,
and the exact rejection message for one invalid `includedSources` element. -/
theorem c5_witness :
    validateDatasetId ("valyu/arxiv") = true ∧
    searchModel noUrlOracle ("q") exampleBadSourcesOptions =
      MethodStep.reject (failSearchResp ("q")
        (sourcesErrMsg ("includedSources")
          (invalidSourcesOf noUrlOracle [("not a source!!")]))) := by
  constructor
  · exact (c5_theorem noUrlOracle).2.1 ("valyu/arxiv") |>.mpr
      ⟨("valyu").toList, ("arxiv").toList, by decide, by decide, by decide,
        by decide, by decide, by decide⟩
  · exact (c5_theorem noUrlOracle).2.2.2.1 ("q") exampleBadSourcesOptions
      [("not a source!!")] rfl rfl rfl (by decide) rfl (by decide)

/-- A payload with `search_results` present and `success: false`, on which
the two parsers disagree. -/
def srFalseExample : ParsedPayload :=
  ⟨some [⟨("r1")⟩], some false, none, none, none, none, none, none, none, none, none⟩

/-- A final-metadata payload (`success: true`, nothing else). -/
def metaOnlyExample : ParsedPayload :=
  ⟨none, some true, none, none, none, none, none, none, none, none, none⟩

/-- C6 counterexample.  On a parsed payload carrying `search_results`
together with `success: false`, `fetchAnswer` classifies it as search
results (`parsed.search_results && !parsed.success` holds) while
`streamAnswer` classifies it as final metadata
(`parsed.success === undefined` fails, `parsed.success !== undefined`
holds) — the classifications are not identical. -/
theorem c6_counterexample :
    classifyFetchP srFalseExample = PayloadRoute.searchResults ∧
    classifyStreamP srFalseExample = PayloadRoute.finalMetadata := by
  constructor <;> rfl

/-- C6 (amended).  The two answer paths classify a parsed payload
identically unless it has `search_results` present together with `success`
present and `false`; and for every stream whose payloads avoid that shape,
the `fullContent` string `fetchAnswer` accumulates equals the concatenation
of the `content` fields of the `content` chunks `streamAnswer` yields, so
when the final metadata lacks a (truthy) `contents` field the assembled
response carries exactly that concatenation. -/
theorem c6_theorem :
    (∀ p : ParsedPayload, isSrFalsePayload p = false →
      classifyFetchP p = classifyStreamP p) ∧
    (∀ (jp : List Char → Option ParsedPayload) (chunks : List (List Char)),
      (∀ l ∈ (sseRun [] chunks).1, ∀ p, jp (l.drop 6) = some p →
        isSrFalsePayload p = false) →
      (fetchAnswerAcc jp chunks).fullContent =
        contentConcatOf (streamAnswerChunks jp chunks) ∧
      (∀ payloadQuery fm, (fetchAnswerAcc jp chunks).finalMetadata = some fm →
        fm.success = some true → jsTruthyS fm.contents = false →
        ∃ r, fetchAnswerResult jp payloadQuery chunks = AnswerRespM.ok r ∧
          r.contents = contentConcatOf (streamAnswerChunks jp chunks))) := by
  refine ⟨classify_agree, ?_⟩
  intro jp chunks hsafe
  have hcore : (fetchAnswerAcc jp chunks).fullContent =
      contentConcatOf (streamAnswerChunks jp chunks) := by
    unfold fetchAnswerAcc streamAnswerChunks
    have h := fullContent_fold jp ((sseRun [] chunks).1) ⟨("") , [], none⟩ hsafe
    simpa using h
  refine ⟨hcore, ?_⟩
  intro payloadQuery fm hfm hsucc hcont
  have hres : fetchAnswerResult jp payloadQuery chunks = AnswerRespM.ok
      { tx_id := jsOrD fm.tx_id ("")
        original_query := jsOrD fm.original_query payloadQuery
        contents := (fetchAnswerAcc jp chunks).fullContent
        search_results := fm.search_results.getD (fetchAnswerAcc jp chunks).searchResults
        search_metadata := fm.search_metadata.getD ⟨[], 0, 0⟩
        ai_usage := fm.ai_usage.getD ⟨0, 0⟩
        cost := fm.cost.getD ⟨0, 0, 0⟩
        extraction_metadata := fm.extraction_metadata } := by
    unfold fetchAnswerResult buildAnswerResponse
    rw [hfm]
    simp [hsucc, hcont]
  exact ⟨_, hres, by simpa using hcore⟩

/-- C6 witness: classification agreement on a pure metadata payload, and the
content-concatenation equality on a small stream. -/
theorem c6_witness :
    classifyFetchP metaOnlyExample = classifyStreamP metaOnlyExample ∧
    (fetchAnswerAcc jpNone [("data: x\n").toList]).fullContent =
      contentConcatOf (streamAnswerChunks jpNone [("data: x\n").toList]) := by
  have h := c6_theorem
  refine ⟨h.1 metaOnlyExample (by decide), ?_⟩
  refine (h.2 jpNone [("data: x\n").toList] ?_).1
  intro l hl p hp
  simp [jpNone] at hp

/-- Whether a step is an early rejection. -/
def stepIsReject {ρ π : Type} : MethodStep ρ π → Bool
  | MethodStep.reject _ => true
  | MethodStep.request _ => false

theorem stepIsReject_exists {ρ π : Type} (m : MethodStep ρ π)
    (h : stepIsReject m = true) : ∃ r, m = MethodStep.reject r := by
  cases m with
  | reject r => exact ⟨r, rfl⟩
  | request p => simp [stepIsReject] at h

theorem contentsModel_reject_zeroed (urls : JsArr String) (o : ContentsOptionsM)
    (r : ContentsRespM) (h : contentsModel urls o = MethodStep.reject r) :
    r.success = false ∧ r.error.isSome = true ∧ r.results = [] ∧
      r.total_cost_dollars = 0 ∧ r.total_characters = 0 := by
  obtain ⟨msg, requested, failed, hr⟩ := contentsModel_reject_shape urls o r h
  subst hr
  exact ⟨rfl, rfl, rfl, rfl, rfl⟩

/-- C7.  Validation failure is atomic: every rejected `search` or `contents`
call synthesizes a success-`false` response with empty results and zero
cost/character totals — represented by `MethodStep.reject`, which carries no
request payload, so no HTTP call is made — and each condition listed in the
claim does reject. -/
theorem c7_theorem :
    (∀ (isUrl : String → Bool) (q : String) (o : SearchOptionsM) (r : SearchRespM),
      searchModel isUrl q o = MethodStep.reject r →
      r.success = false ∧ r.error.isSome = true ∧ r.results = [] ∧
        r.total_deduction_dollars = 0 ∧ r.total_characters = 0) ∧
    (∀ (urls : JsArr String) (o : ContentsOptionsM) (r : ContentsRespM),
      contentsModel urls o = MethodStep.reject r →
      r.success = false ∧ r.error.isSome = true ∧ r.results = [] ∧
        r.total_cost_dollars = 0 ∧ r.total_characters = 0) ∧
    (∀ (isUrl : String → Bool) (q : String) (o : SearchOptionsM) (t : String),
      o.searchType = some t → searchTypeValid (jsToLower t) = false →
      ∃ r, searchModel isUrl q o = MethodStep.reject r) ∧
    (∀ (isUrl : String → Bool) (q : String) (o : SearchOptionsM) (d : String),
      o.startDate = some d → d ≠ "" → validateDateFormat d = false →
      ∃ r, searchModel isUrl q o = MethodStep.reject r) ∧
    (∀ (isUrl : String → Bool) (q : String) (o : SearchOptionsM) (d : String),
      o.endDate = some d → d ≠ "" → validateDateFormat d = false →
      ∃ r, searchModel isUrl q o = MethodStep.reject r) ∧
    (∀ (isUrl : String → Bool) (q : String) (o : SearchOptionsM) (x : ℚ),
      o.maxNumResults = some x → (x < 1 ∨ 100 < x) →
      ∃ r, searchModel isUrl q o = MethodStep.reject r) ∧
    (∀ (isUrl : String → Bool) (q : String) (o : SearchOptionsM),
      o.includedSources = some JsArr.notArray →
      ∃ r, searchModel isUrl q o = MethodStep.reject r) ∧
    (∀ (isUrl : String → Bool) (q : String) (o : SearchOptionsM) (l : List String)
        (s : String), o.includedSources = some (JsArr.arr l) → s ∈ l →
      validateSource isUrl s = false →
      ∃ r, searchModel isUrl q o = MethodStep.reject r) ∧
    (∀ (isUrl : String → Bool) (q : String) (o : SearchOptionsM),
      o.excludeSources = some JsArr.notArray →
      ∃ r, searchModel isUrl q o = MethodStep.reject r) ∧
    (∀ (isUrl : String → Bool) (q : String) (o : SearchOptionsM) (l : List String)
        (s : String), o.excludeSources = some (JsArr.arr l) → s ∈ l →
      validateSource isUrl s = false →
      ∃ r, searchModel isUrl q o = MethodStep.reject r) ∧
    (∀ o : ContentsOptionsM, ∃ r, contentsModel JsArr.notArray o = MethodStep.reject r) ∧
    (∀ o : ContentsOptionsM, ∃ r, contentsModel (JsArr.arr []) o = MethodStep.reject r) ∧
    (∀ (l : List String) (o : ContentsOptionsM), 10 < l.length →
      ∃ r, contentsModel (JsArr.arr l) o = MethodStep.reject r) ∧
    (∀ (l : List String) (o : ContentsOptionsM) (eff : String),
      l.length ≠ 0 → l.length ≤ 10 → o.extractEffort = some eff → eff ≠ "" →
      (["normal", "high", "auto"].contains eff) = false →
      ∃ r, contentsModel (JsArr.arr l) o = MethodStep.reject r) ∧
    (∀ (l : List String) (o : ContentsOptionsM) (s : String),
      o.responseLength = some (RespLenM.strVal s) →
      (["short", "medium", "large", "max"].contains s) = false →
      ∃ r, contentsModel (JsArr.arr l) o = MethodStep.reject r) ∧
    (∀ (l : List String) (o : ContentsOptionsM) (x : ℚ),
      o.responseLength = some (RespLenM.numVal x) → x ≤ 0 →
      ∃ r, contentsModel (JsArr.arr l) o = MethodStep.reject r) := by
  refine ⟨?_, contentsModel_reject_zeroed, ?_, ?_, ?_, ?_, ?_, ?_, ?_, ?_, ?_, ?_, ?_, ?_, ?_, ?_⟩
  · intro isUrl q o r h
    obtain ⟨msg, hr⟩ := searchModel_reject_shape isUrl q o r h
    subst hr
    exact ⟨rfl, rfl, rfl, rfl, rfl⟩
  · -- invalid searchType
    intro isUrl q o t ht hvalid
    cases hm : searchModel isUrl q o with
    | reject r => exact ⟨r, rfl⟩
    | request p =>
      obtain ⟨h1, -, -, -, -, -, -⟩ := searchModel_request_inv isUrl q o p hm
      rw [ht] at h1
      simp only [Option.map] at h1
      rw [hvalid] at h1
      cases h1
  · -- bad startDate
    intro isUrl q o d hd hne hbad
    cases hm : searchModel isUrl q o with
    | reject r => exact ⟨r, rfl⟩
    | request p =>
      obtain ⟨-, h2, -, -, -, -, -⟩ := searchModel_request_inv isUrl q o p hm
      rw [hd] at h2
      simp [jsTruthyS, hne, hbad] at h2
  · -- bad endDate
    intro isUrl q o d hd hne hbad
    cases hm : searchModel isUrl q o with
    | reject r => exact ⟨r, rfl⟩
    | request p =>
      obtain ⟨-, -, h3, -, -, -, -⟩ := searchModel_request_inv isUrl q o p hm
      rw [hd] at h3
      simp [jsTruthyS, hne, hbad] at h3
  · -- maxNumResults out of range
    intro isUrl q o x hx hrange
    cases hm : searchModel isUrl q o with
    | reject r => exact ⟨r, rfl⟩
    | request p =>
      obtain ⟨-, -, -, h4, -, -, -⟩ := searchModel_request_inv isUrl q o p hm
      rw [hx] at h4
      exact absurd hrange (by simpa using h4)
  · -- includedSources not an array
    intro isUrl q o hinc
    cases hm : searchModel isUrl q o with
    | reject r => exact ⟨r, rfl⟩
    | request p =>
      obtain ⟨-, -, -, -, h5, -, -⟩ := searchModel_request_inv isUrl q o p hm
      rw [hinc] at h5
      simp [includedOk] at h5
  · -- includedSources with an invalid element
    intro isUrl q o l s hinc hmem hbad
    cases hm : searchModel isUrl q o with
    | reject r => exact ⟨r, rfl⟩
    | request p =>
      obtain ⟨-, -, -, -, h5, -, -⟩ := searchModel_request_inv isUrl q o p hm
      rw [hinc] at h5
      simp only [includedOk, decide_eq_true_eq] at h5
      have hs : s ∈ invalidSourcesOf isUrl l := by
        simp [invalidSourcesOf, List.mem_filter, hmem, hbad]
      rw [h5] at hs
      exact absurd hs (List.not_mem_nil s)
  · -- excludeSources not an array
    intro isUrl q o hexc
    cases hm : searchModel isUrl q o with
    | reject r => exact ⟨r, rfl⟩
    | request p =>
      obtain ⟨-, -, -, -, -, h6, -⟩ := searchModel_request_inv isUrl q o p hm
      rw [hexc] at h6
      simp [includedOk] at h6
  · -- excludeSources with an invalid element
    intro isUrl q o l s hexc hmem hbad
    cases hm : searchModel isUrl q o with
    | reject r => exact ⟨r, rfl⟩
    | request p =>
      obtain ⟨-, -, -, -, -, h6, -⟩ := searchModel_request_inv isUrl q o p hm
      rw [hexc] at h6
      simp only [includedOk, decide_eq_true_eq] at h6
      have hs : s ∈ invalidSourcesOf isUrl l := by
        simp [invalidSourcesOf, List.mem_filter, hmem, hbad]
      rw [h6] at hs
      exact absurd hs (List.not_mem_nil s)
  · intro o
    exact ⟨_, rfl⟩
  · intro o
    exact stepIsReject_exists _ (by simp [contentsModel, stepIsReject])
  · intro l o hlen
    exact stepIsReject_exists _
      (by simp [contentsModel, show l.length ≠ 0 by omega, hlen, stepIsReject])
  · intro l o eff h0 h10 heff hne hbad
    refine stepIsReject_exists _ ?_
    have hc : (jsTruthyS o.extractEffort &&
        !(["normal", "high", "auto"].contains (o.extractEffort.getD ("")))) = true := by
      rw [heff]
      simp [jsTruthyS, hne]
      simpa using hbad
    simp only [contentsModel]
    rw [if_neg h0, if_neg (show ¬ 10 < l.length by omega), if_pos hc]
    rfl
  · intro l o s hrl hbad
    refine stepIsReject_exists _ ?_
    simp only [contentsModel, hrl]
    by_cases h0 : l.length = 0
    · rw [if_pos h0]
      rfl
    · rw [if_neg h0]
      by_cases h10 : 10 < l.length
      · rw [if_pos h10]
        rfl
      · rw [if_neg h10]
        by_cases hee : (jsTruthyS o.extractEffort &&
            !(["normal", "high", "auto"].contains (o.extractEffort.getD ("")))) = true
        · rw [if_pos hee]
          rfl
        · rw [if_neg hee,
            if_pos (show (!(["short", "medium", "large", "max"].contains s)) = true by
              simp
              simpa using hbad)]
          rfl
  · intro l o x hrl hx
    refine stepIsReject_exists _ ?_
    simp only [contentsModel, hrl]
    by_cases h0 : l.length = 0
    · rw [if_pos h0]
      rfl
    · rw [if_neg h0]
      by_cases h10 : 10 < l.length
      · rw [if_pos h10]
        rfl
      · rw [if_neg h10]
        by_cases hee : (jsTruthyS o.extractEffort &&
            !(["normal", "high", "auto"].contains (o.extractEffort.getD ("")))) = true
        · rw [if_pos hee]
          rfl
        · rw [if_neg hee, if_pos hx]
          rfl

/-- Options with `maxNumResults` below the allowed range. -/
def exampleBadNumOptions : SearchOptionsM :=
  { searchType := none, maxNumResults := some 0, maxPrice := none,
    isToolCall := none, relevanceThreshold := none, includedSources := none,
    excludeSources := none, category := none, startDate := none, endDate := none,
    countryCode := none, responseLength := none, fastMode := none, urlOnly := none }

/-- The rejection `search` synthesizes for an out-of-range `maxNumResults`. -/
def exampleRejectResp : SearchRespM :=
  failSearchResp ("q") ("maxNumResults must be between 1 and 100")

/-- C7 witness: the zeroed shape of a concrete searchType rejection, and a
concrete empty-urls rejection of `contents`. -/
theorem c7_witness :
    (exampleRejectResp.success = false ∧ exampleRejectResp.error.isSome = true ∧
      exampleRejectResp.results = [] ∧ exampleRejectResp.total_deduction_dollars = 0 ∧
      exampleRejectResp.total_characters = 0) ∧
    ∃ r, contentsModel (JsArr.arr []) ⟨none, none, none, none, none⟩ =
      MethodStep.reject r := by
  constructor
  · exact c7_theorem.1 noUrlOracle ("q") exampleBadNumOptions exampleRejectResp rfl
  · exact c7_theorem.2.2.2.2.2.2.2.2.2.2.2.1 ⟨none, none, none, none, none⟩

/-- C8.  No single-call operation rejects on an HTTP/network error: every
wrapped call resolves to `success: false` with the error string taken from
the `error` field of the response body when present (and nonempty) and from the
exception message otherwise; this covers the uniformly-wrapped deepresearch,
batch and datasources calls, the validated create/update/addTasks calls,
`search`, `contents`, and non-streaming `answer`. -/
theorem c8_theorem :
    (∀ e s, e.respError = some s → s ≠ "" → axiosErrMsg e = s) ∧
    (∀ e, e.respError = none → axiosErrMsg e = e.message) ∧
    (∀ e, drStatusCall (AxiosOutcome.exn e) = ⟨false, some (axiosErrMsg e), none⟩) ∧
    (∀ e, drListCall (AxiosOutcome.exn e) = ⟨false, some (axiosErrMsg e), none⟩) ∧
    (∀ e, drCancelCall (AxiosOutcome.exn e) = ⟨false, some (axiosErrMsg e), none⟩) ∧
    (∀ e, drDeleteCall (AxiosOutcome.exn e) = ⟨false, some (axiosErrMsg e), none⟩) ∧
    (∀ e, drTogglePublicCall (AxiosOutcome.exn e) =
      ⟨false, some (axiosErrMsg e), none⟩) ∧
    (∀ e, drGetAssetsCall (AxiosOutcome.exn e) = ⟨false, some (axiosErrMsg e), none⟩) ∧
    (∀ e, batchCreateCall (AxiosOutcome.exn e) = ⟨false, some (axiosErrMsg e), none⟩) ∧
    (∀ e, batchStatusCall (AxiosOutcome.exn e) = ⟨false, some (axiosErrMsg e), none⟩) ∧
    (∀ e, batchListTasksCall (AxiosOutcome.exn e) =
      ⟨false, some (axiosErrMsg e), none⟩) ∧
    (∀ e, batchCancelCall (AxiosOutcome.exn e) = ⟨false, some (axiosErrMsg e), none⟩) ∧
    (∀ e, batchListCall (AxiosOutcome.exn e) = ⟨false, some (axiosErrMsg e), none⟩) ∧
    (∀ e, datasourcesListCall (AxiosOutcome.exn e) =
      ⟨false, some (axiosErrMsg e), none⟩) ∧
    (∀ e, datasourcesCategoriesCall (AxiosOutcome.exn e) =
      ⟨false, some (axiosErrMsg e), none⟩) ∧
    (∀ query input e,
      jsTruthyS ((match query with
        | some v => some v
        | none => input).map jsTrim) = true →
      drCreateCall query input (AxiosOutcome.exn e) =
        ⟨false, some (axiosErrMsg e), none⟩) ∧
    (∀ instruction e, jsTruthyS (instruction.map jsTrim) = true →
      drUpdateCall instruction (AxiosOutcome.exn e) =
        ⟨false, some (axiosErrMsg e), none⟩) ∧
    (∀ (l : List BatchTaskInM) e, l.length ≠ 0 → l.length ≤ 100 →
      (∀ t ∈ l, (jsTruthyS t.query || jsTruthyS t.input) = true) →
      batchAddTasksCall (some (JsArr.arr l)) (AxiosOutcome.exn e) =
        ⟨false, some (axiosErrMsg e), none⟩) ∧
    (∀ (isUrl : String → Bool) q o p e, searchModel isUrl q o = MethodStep.request p →
      searchRun isUrl q o (AxiosOutcome.exn e) =
        HttpRespM.client (failSearchResp q (axiosErrMsg e))) ∧
    (∀ urls o p e, contentsModel urls o = MethodStep.request p →
      contentsRun urls o (AxiosOutcome.exn e) =
        HttpRespM.client (failContentsResp (axiosErrMsg e)
          p.urls.length p.urls.length)) ∧
    (∀ (jp : List Char → Option ParsedPayload) (payloadQuery m : String), m ≠ "" →
      fetchAnswerModel jp payloadQuery (FetchOutcome.exn m) = AnswerRespM.err m) := by
  refine ⟨?_, ?_, fun e => rfl, fun e => rfl, fun e => rfl, fun e => rfl, fun e => rfl,
    fun e => rfl, fun e => rfl, fun e => rfl, fun e => rfl, fun e => rfl, fun e => rfl,
    fun e => rfl, fun e => rfl, ?_, ?_, ?_, ?_, ?_, ?_⟩
  · intro e s hs hne
    simp [axiosErrMsg, jsOrD, hs, hne]
  · intro e hs
    simp [axiosErrMsg, jsOrD, hs]
  · intro query input e hv
    simp [drCreateCall, hv, axiosWrap]
  · intro instruction e hv
    simp [drUpdateCall, hv, axiosWrap]
  · intro l e h0 h100 hall
    have hany : (l.any fun t => !(jsTruthyS t.query || jsTruthyS t.input)) = false := by
      simp only [List.any_eq_false]
      intro t ht
      simp [hall t ht]
    simp only [batchAddTasksCall]
    rw [if_neg h0, if_neg (show ¬ (100 < l.length) by omega),
      if_neg (show ¬ ((l.any fun t => !(jsTruthyS t.query || jsTruthyS t.input)) = true) by
        rw [hany]
        simp)]
    rfl
  · intro isUrl q o p e hreq
    simp [searchRun, hreq]
  · intro urls o p e hreq
    simp [contentsRun, hreq]
  · intro jp payloadQuery m hm
    simp [fetchAnswerModel, jsOrD, hm]

/-- An axios rejection carrying a response-body error field. -/
def exampleAxiosErr : AxiosErr :=
  ⟨some ("quota exceeded"), ("Request failed with status code 402")⟩

/-- C8 witness: the catch shapes evaluated at a concrete rejection. -/
theorem c8_witness :
    axiosErrMsg exampleAxiosErr = ("quota exceeded") ∧
    drStatusCall (AxiosOutcome.exn exampleAxiosErr) =
      ⟨false, some (axiosErrMsg exampleAxiosErr), none⟩ ∧
    drCreateCall (some ("find things")) none (AxiosOutcome.exn exampleAxiosErr) =
      ⟨false, some (axiosErrMsg exampleAxiosErr), none⟩ ∧
    fetchAnswerModel jpNone ("q") (FetchOutcome.exn ("network down")) =
      AnswerRespM.err ("network down") := by
  have h := c8_theorem
  refine ⟨h.1 exampleAxiosErr ("quota exceeded") rfl (by decide),
    h.2.2.1 exampleAxiosErr, ?_, ?_⟩
  · exact h.2.2.2.2.2.2.2.2.2.2.2.2.2.2.2.1 (some ("find things")) none
      exampleAxiosErr (by decide)
  · exact h.2.2.2.2.2.2.2.2.2.2.2.2.2.2.2.2.2.2.2.2 jpNone ("q") ("network down")
      (by decide)

/-- C9.  Payload shaping for `search`: whenever validation passes, the
posted body carries the query, the lowercased (or defaulted) search type,
and the defaulted `max_num_results` (10), `is_tool_call` (`true`) and
`relevance_threshold` (0.5); every optional snake_case key is present
exactly when the camelCase option was provided, with the provided value;
and `buildAnswerPayload` posts the trimmed query. -/
theorem c9_theorem (isUrl : String → Bool) (q : String) (o : SearchOptionsM)
    (p : SearchPayloadM) (h : searchModel isUrl q o = MethodStep.request p) :
    p.query = q ∧
    p.search_type = (o.searchType.map jsToLower).getD ("all") ∧
    p.max_num_results = o.maxNumResults.getD 10 ∧
    p.is_tool_call = o.isToolCall.getD true ∧
    p.relevance_threshold = o.relevanceThreshold.getD (1 / 2) ∧
    p.max_price = o.maxPrice ∧
    (p.included_sources.isSome ↔ o.includedSources.isSome) ∧
    (p.exclude_sources.isSome ↔ o.excludeSources.isSome) ∧
    p.category = o.category ∧
    p.start_date = o.startDate ∧
    p.end_date = o.endDate ∧
    p.country_code = o.countryCode ∧
    p.response_length = o.responseLength ∧
    p.fast_mode = o.fastMode ∧
    p.url_only = o.urlOnly ∧
    (∀ (q2 : String) (o2 : AnswerOptionsM),
      (buildAnswerPayloadM q2 o2).query = jsTrim q2) := by
  obtain ⟨h1, -, -, -, h5, h6, hp⟩ := searchModel_request_inv isUrl q o p h
  subst hp
  refine ⟨rfl, ?_, rfl, rfl, rfl, rfl, ?_, ?_, rfl, rfl, rfl, rfl, rfl, rfl, rfl,
    fun q2 o2 => rfl⟩
  · exact finalSearchTypeOf_of_valid o.searchType h1
  · cases hin : o.includedSources with
    | none => simp [searchPayloadOf, jsArrVal, hin]
    | some v =>
      cases v with
      | notArray =>
        rw [hin] at h5
        simp [includedOk] at h5
      | arr l => simp [searchPayloadOf, jsArrVal, hin]
  · cases hex : o.excludeSources with
    | none => simp [searchPayloadOf, jsArrVal, hex]
    | some v =>
      cases v with
      | notArray =>
        rw [hex] at h6
        simp [includedOk] at h6
      | arr l => simp [searchPayloadOf, jsArrVal, hex]

/-- Options exercising the lowercasing and the presence rules. -/
def examplePayloadOptions : SearchOptionsM :=
  { searchType := some ("NEWS"), maxNumResults := none, maxPrice := some 3,
    isToolCall := none, relevanceThreshold := none, includedSources := none,
    excludeSources := none, category := none, startDate := none, endDate := none,
    countryCode := none, responseLength := none, fastMode := some true,
    urlOnly := none }

/-- C9 witness: the shaped payload for a concrete valid call. -/
theorem c9_witness :
    (searchPayloadOf ("hello") examplePayloadOptions).query = ("hello") ∧
    (searchPayloadOf ("hello") examplePayloadOptions).search_type =
      (examplePayloadOptions.searchType.map jsToLower).getD ("all") ∧
    (searchPayloadOf ("hello") examplePayloadOptions).max_num_results = 10 ∧
    (searchPayloadOf ("hello") examplePayloadOptions).max_price = some 3 ∧
    (buildAnswerPayloadM ("  padded  ") ⟨none, none, none, none, none, none, none,
      none, none, none⟩).query = jsTrim ("  padded  ") := by
  have h := c9_theorem noUrlOracle ("hello") examplePayloadOptions
    (searchPayloadOf ("hello") examplePayloadOptions) rfl
  obtain ⟨hq, hst, hmax, -, -, hmp, -, -, -, -, -, -, -, -, -, hans⟩ := h
  exact ⟨hq, hst, hmax, hmp, hans _ _⟩

/-- C10.  The constructor falls back to the `VALYU_API_KEY` environment
variable when no (truthy) `apiKey` argument is given, throws
`"VALYU_API_KEY is not set"` when that is also absent, and in every
non-throwing construction stores `Content-Type: application/json` and an
`x-api-key` header equal to the resolved key. -/
theorem c10_theorem :
    (∀ envKey, jsTruthyS envKey = false →
      valyuConstructor none envKey = Except.error ("VALYU_API_KEY is not set")) ∧
    (∀ k, k ≠ "" →
      valyuConstructor none (some k) = Except.ok ⟨("application/json"), k⟩) ∧
    (∀ apiKey envKey h, valyuConstructor apiKey envKey = Except.ok h →
      h.contentType = "application/json" ∧
        some h.xApiKey = resolvedKeyOf apiKey envKey) := by
  refine ⟨?_, ?_, ?_⟩
  · intro envKey he
    simp only [valyuConstructor]
    rw [show resolvedKeyOf none envKey = envKey from by simp [resolvedKeyOf, jsTruthyS],
      if_pos he]
  · intro k hk
    simp only [valyuConstructor]
    rw [show resolvedKeyOf none (some k) = some k from by
        simp [resolvedKeyOf, jsTruthyS],
      if_neg (show ¬ (jsTruthyS (some k) = false) by simp [jsTruthyS, hk])]
    rfl
  · intro apiKey envKey h hok
    simp only [valyuConstructor] at hok
    by_cases ht : jsTruthyS (resolvedKeyOf apiKey envKey) = false
    · rw [if_pos ht] at hok
      cases hok
    · rw [if_neg ht] at hok
      cases hok
      refine ⟨rfl, ?_⟩
      cases hk : resolvedKeyOf apiKey envKey with
      | none =>
        rw [hk] at ht
        simp [jsTruthyS] at ht
      | some s => simp [hk]

/-- C10 witness: the throwing construction and an environment fallback. -/
theorem c10_witness :
    valyuConstructor none none = Except.error ("VALYU_API_KEY is not set") ∧
    valyuConstructor none (some ("sk-test")) =
      Except.ok ⟨("application/json"), ("sk-test")⟩ := by
  have h := c10_theorem
  exact ⟨h.1 none rfl, h.2.1 ("sk-test") (by decide)⟩
